import Mathlib

/-!
Verification of the detectorrbt face-tracking pipeline.

The repository contains two generations of the same pipeline:
* a DDD-style variant (`src/domain/services/face_quality_service.py`,
  `src/domain/services/bytetrack_detector_service.py`, `src/domain/entities/track_entity.py`)
* a standalone variant (`face_quality_score.py`, `camera_processor.py`, `track_processor.py`).

Python floats are embedded as exact rationals (`ℚ`); Euclidean distances, which the
source computes with `math.sqrt`, live in `ℝ` via `Real.sqrt`.  Python dicts (which
preserve insertion order and key uniqueness) are embedded as association lists.
-/

namespace DetectorRBT

/-- Modelled from the spec: the `BboxVO` value object file is not in the repository
snapshot; the spec defines a bounding box as integer corners `(x1, y1, x2, y2)`. -/
structure Bbox where
  x1 : ℤ
  y1 : ℤ
  x2 : ℤ
  y2 : ℤ
  deriving DecidableEq, Repr

/-- Modelled from the spec: `BboxVO.width` is `x2 - x1`. -/
def Bbox.width (b : Bbox) : ℤ := b.x2 - b.x1

/-- Modelled from the spec: `BboxVO.height` is `y2 - y1`. -/
def Bbox.height (b : Bbox) : ℤ := b.y2 - b.y1

/-- Modelled from the spec: `BboxVO.area` is `width * height`. -/
def Bbox.area (b : Bbox) : ℤ := b.width * b.height

namespace FaceQualityService

/-- `FaceQualityService._calculate_confidence_score`: the YOLO confidence verbatim. -/
def calcConfidenceScore (confidence : ℚ) : ℚ := confidence

/-- `FaceQualityService._calculate_size_score`:
`min(area / (frame_area * 0.3), 1.0)` where `frame_area = frame.height * frame.width`. -/
def calcSizeScore (bbox : Bbox) (frameHeight frameWidth : ℤ) : ℚ :=
  min ((bbox.area : ℚ) / ((frameHeight * frameWidth : ℤ) * (3 / 10 : ℚ))) 1

/-- `FaceQualityService._calculate_frontal_score`.  The landmarks argument is
`None` (or shorter than 5 points) in the first pattern group: the source returns
`1.0` there.  With at least 5 points it measures the horizontal nose offset
against the eye distance. -/
def calcFrontalScore : Option (List (ℚ × ℚ)) → ℚ
  | some (le :: re :: nose :: _ :: _ :: _) =>
    let eyeDistance := |re.1 - le.1|
    let eyeCenterX := (le.1 + re.1) / 2
    let noseOffset := |nose.1 - eyeCenterX|
    if 0 < eyeDistance then max 0 (1 - noseOffset / eyeDistance) else 1
  | _ => 1

/-- `FaceQualityService._calculate_proportion_score`:
`0.0` when the width is zero, else `max(0, 1 - |height/width - 1.3|)`. -/
def calcProportionScore (bbox : Bbox) : ℚ :=
  if bbox.width = 0 then 0
  else max 0 (1 - |(bbox.height : ℚ) / (bbox.width : ℚ) - 13 / 10|)

/-- `FaceQualityService._calculate_sharpness_score`.  The pixel content of the
cropped region is outside the embedding: the crop's emptiness and its
variance-of-Laplacian are inputs.  Empty crop gives `0.0`, otherwise
`min(laplacian_var / 500.0, 1.0)`. -/
def calcSharpnessScore (roiEmpty : Bool) (laplacianVar : ℚ) : ℚ :=
  if roiEmpty then 0 else min (laplacianVar / 500) 1

/-- `FaceQualityService.calculate_quality`: the weighted average of the five
sub-scores (default weights 3, 4, 6, 1, 1 in the source signature). -/
def calculate_quality (confidence : ℚ) (bbox : Bbox) (frameHeight frameWidth : ℤ)
    (landmarks : Option (List (ℚ × ℚ))) (roiEmpty : Bool) (laplacianVar : ℚ)
    (pesoConfianca pesoTamanho pesoFrontal pesoProporcao pesoNitidez : ℚ) : ℚ :=
  let scoreConfianca := calcConfidenceScore confidence
  let scoreTamanho := calcSizeScore bbox frameHeight frameWidth
  let scoreFrontal := calcFrontalScore landmarks
  let scoreProporcao := calcProportionScore bbox
  let scoreNitidez := calcSharpnessScore roiEmpty laplacianVar
  let totalPeso := pesoConfianca + pesoTamanho + pesoFrontal + pesoProporcao + pesoNitidez
  (scoreConfianca * pesoConfianca + scoreTamanho * pesoTamanho + scoreFrontal * pesoFrontal +
    scoreProporcao * pesoProporcao + scoreNitidez * pesoNitidez) / totalPeso

lemma calcSizeScore_nonneg (bbox : Bbox) (frameHeight frameWidth : ℤ)
    (hx : bbox.x1 ≤ bbox.x2) (hy : bbox.y1 ≤ bbox.y2)
    (hH : 0 < frameHeight) (hW : 0 < frameWidth) :
    0 ≤ calcSizeScore bbox frameHeight frameWidth := by
  unfold calcSizeScore
  have harea : (0 : ℚ) ≤ (bbox.area : ℚ) := by
    have : (0 : ℤ) ≤ bbox.area := by
      unfold Bbox.area Bbox.width Bbox.height
      have h1 : (0 : ℤ) ≤ bbox.x2 - bbox.x1 := by omega
      have h2 : (0 : ℤ) ≤ bbox.y2 - bbox.y1 := by omega
      exact mul_nonneg h1 h2
    exact_mod_cast this
  have hden : (0 : ℚ) < ((frameHeight * frameWidth : ℤ) : ℚ) * (3 / 10) := by
    have : (0 : ℤ) < frameHeight * frameWidth := mul_pos hH hW
    have hq : (0 : ℚ) < ((frameHeight * frameWidth : ℤ) : ℚ) := by exact_mod_cast this
    nlinarith
  exact le_min (div_nonneg harea (le_of_lt hden)) zero_le_one

lemma calcSizeScore_le_one (bbox : Bbox) (frameHeight frameWidth : ℤ) :
    calcSizeScore bbox frameHeight frameWidth ≤ 1 :=
  min_le_right _ _

lemma calcFrontalScore_mem (landmarks : Option (List (ℚ × ℚ))) :
    0 ≤ calcFrontalScore landmarks ∧ calcFrontalScore landmarks ≤ 1 := by
  match landmarks with
  | some (le :: re :: nose :: p4 :: p5 :: rest) =>
    simp only [calcFrontalScore]
    by_cases h : 0 < |re.1 - le.1|
    · rw [if_pos h]
      refine ⟨le_max_left _ _, ?_⟩
      have hq : 0 ≤ |nose.1 - (le.1 + re.1) / 2| / |re.1 - le.1| :=
        div_nonneg (abs_nonneg _) (le_of_lt h)
      have : 1 - |nose.1 - (le.1 + re.1) / 2| / |re.1 - le.1| ≤ 1 := by linarith
      exact max_le zero_le_one this
    · rw [if_neg h]; exact ⟨zero_le_one, le_refl 1⟩
  | some [] => exact ⟨zero_le_one, le_refl 1⟩
  | some [p1] => exact ⟨zero_le_one, le_refl 1⟩
  | some [p1, p2] => exact ⟨zero_le_one, le_refl 1⟩
  | some [p1, p2, p3] => exact ⟨zero_le_one, le_refl 1⟩
  | some [p1, p2, p3, p4] => exact ⟨zero_le_one, le_refl 1⟩
  | none => exact ⟨zero_le_one, le_refl 1⟩

lemma calcProportionScore_mem (bbox : Bbox) :
    0 ≤ calcProportionScore bbox ∧ calcProportionScore bbox ≤ 1 := by
  unfold calcProportionScore
  by_cases h : bbox.width = 0
  · rw [if_pos h]; exact ⟨le_refl 0, zero_le_one⟩
  · rw [if_neg h]
    refine ⟨le_max_left _ _, max_le zero_le_one ?_⟩
    have := abs_nonneg ((bbox.height : ℚ) / (bbox.width : ℚ) - 13 / 10)
    linarith

lemma calcSharpnessScore_mem (roiEmpty : Bool) (laplacianVar : ℚ) (hlap : 0 ≤ laplacianVar) :
    0 ≤ calcSharpnessScore roiEmpty laplacianVar ∧ calcSharpnessScore roiEmpty laplacianVar ≤ 1 := by
  unfold calcSharpnessScore
  cases roiEmpty with
  | true => exact ⟨le_refl 0, zero_le_one⟩
  | false =>
    simp only [Bool.false_eq_true, if_false]
    exact ⟨le_min (div_nonneg hlap (by norm_num)) zero_le_one, min_le_right _ _⟩

lemma weighted_avg_mem (s1 s2 s3 s4 s5 w1 w2 w3 w4 w5 : ℚ)
    (h1 : 0 ≤ s1) (h1b : s1 ≤ 1) (h2 : 0 ≤ s2) (h2b : s2 ≤ 1)
    (h3 : 0 ≤ s3) (h3b : s3 ≤ 1) (h4 : 0 ≤ s4) (h4b : s4 ≤ 1)
    (h5 : 0 ≤ s5) (h5b : s5 ≤ 1)
    (hw1 : 0 ≤ w1) (hw2 : 0 ≤ w2) (hw3 : 0 ≤ w3) (hw4 : 0 ≤ w4) (hw5 : 0 ≤ w5)
    (htot : 0 < w1 + w2 + w3 + w4 + w5) :
    0 ≤ (s1 * w1 + s2 * w2 + s3 * w3 + s4 * w4 + s5 * w5) / (w1 + w2 + w3 + w4 + w5) ∧
      (s1 * w1 + s2 * w2 + s3 * w3 + s4 * w4 + s5 * w5) / (w1 + w2 + w3 + w4 + w5) ≤ 1 := by
  constructor
  · refine div_nonneg ?_ (le_of_lt htot)
    have := mul_nonneg h1 hw1
    have := mul_nonneg h2 hw2
    have := mul_nonneg h3 hw3
    have := mul_nonneg h4 hw4
    have := mul_nonneg h5 hw5
    linarith
  · rw [div_le_one htot]
    have e1 : s1 * w1 ≤ w1 := mul_le_of_le_one_left hw1 h1b
    have e2 : s2 * w2 ≤ w2 := mul_le_of_le_one_left hw2 h2b
    have e3 : s3 * w3 ≤ w3 := mul_le_of_le_one_left hw3 h3b
    have e4 : s4 * w4 ≤ w4 := mul_le_of_le_one_left hw4 h4b
    have e5 : s5 * w5 ≤ w5 := mul_le_of_le_one_left hw5 h5b
    linarith

end FaceQualityService

namespace FQS

/-- The five facial landmarks of `face_quality_score.py` (an array of shape (5, 2)). -/
structure Landmarks5 where
  leftEye : ℝ × ℝ
  rightEye : ℝ × ℝ
  nose : ℝ × ℝ
  mouthLeft : ℝ × ℝ
  mouthRight : ℝ × ℝ

/-- Python's `math.dist` on 2-d points: the Euclidean distance. -/
noncomputable def mathDist (a b : ℝ × ℝ) : ℝ :=
  Real.sqrt ((a.1 - b.1) ^ 2 + (a.2 - b.2) ^ 2)

/-- `face_quality_score.get_face_score`: frontality from landmark symmetry,
clamped into `[0, 1]` by `max(0.0, min(1.0, score))`. -/
noncomputable def get_face_score (lms : Landmarks5) : ℝ :=
  let distNLe := mathDist lms.nose lms.leftEye
  let distNRe := mathDist lms.nose lms.rightEye
  let distNLm := mathDist lms.nose lms.mouthLeft
  let distNRm := mathDist lms.nose lms.mouthRight
  let avgDist := (distNLe + distNRe + distNLm + distNRm) / 4
  let symmetryDiff := |distNLe - distNRe| + |distNLm - distNRm|
  let epsilon : ℝ := 1 / 1000000
  let score := 1 - symmetryDiff / (2 * avgDist + epsilon)
  max 0 (min 1 score)

/-- The frontality sub-score used by `get_face_quality_score`:
`get_face_score(landmarks)` when landmarks are present, else the constant `0.01`. -/
noncomputable def gfqs_frontal_ratio (landmarks : Option Landmarks5) : ℝ :=
  match landmarks with
  | some lms => get_face_score lms
  | none => 1 / 100

/-- `np.clip(x, lo, hi)`. -/
def npClip (x lo hi : ℝ) : ℝ := max lo (min hi x)

/-- `face_quality_score.get_face_quality_score`: weighted combination of the
relative-size ratio (capped at 10% of the frame) and the frontality ratio,
clipped into `[0, 1]`.  The weights come from `config.yaml`
(defaults `tamanho_bbox = 2`, `face_frontal = 6`). -/
noncomputable def get_face_quality_score (bbox : Bbox) (confidence : ℝ)
    (frameHeight frameWidth : ℤ) (landmarks : Option Landmarks5)
    (pesoTamanhoBbox pesoFaceFrontal : ℝ) : ℝ :=
  let frameArea : ℝ := ((frameWidth * frameHeight : ℤ) : ℝ)
  let w : ℤ := max (bbox.x2 - bbox.x1) 1
  let h : ℤ := max (bbox.y2 - bbox.y1) 1
  let bboxArea : ℝ := ((w * h : ℤ) : ℝ)
  let areaRatio := min (bboxArea / frameArea) (1 / 10) / (1 / 10)
  let frontalRatio := gfqs_frontal_ratio landmarks
  let score := areaRatio * pesoTamanhoBbox + frontalRatio * pesoFaceFrontal
  let pesoTotal := pesoTamanhoBbox + pesoFaceFrontal
  npClip (score / pesoTotal) 0 1

lemma npClip_mem (x : ℝ) : 0 ≤ npClip x 0 1 ∧ npClip x 0 1 ≤ 1 :=
  ⟨le_max_left _ _, max_le zero_le_one (min_le_left _ _)⟩

end FQS

namespace TrackEntity

/-- Modelled from the spec: the DDD `Event` entity file is not in the repository
snapshot.  Per the spec an Observation is an immutable record carrying a bounding
box, a detection confidence, an optional landmark set and a quality score
computed once at creation.  Only the fields read by the track-level queries are
embedded; `eid` is the event id, letting equal-quality events stay distinct. -/
structure Event where
  eid : ℕ
  bbox : Bbox
  quality : ℚ
  deriving DecidableEq, Repr

/-- Python `max(iterable, key=f)`: a fold that replaces the current best only on
a strictly larger key, so on ties the earliest element wins. -/
def pickBest {α : Type} (key : α → ℚ) (a : α) (l : List α) : α :=
  l.foldl (fun b x => if key b < key x then x else b) a

/-- `Track.get_best_event`: `None` on an empty track, otherwise
`max(self._events, key=lambda e: e.face_quality_score.value())`. -/
def get_best_event (events : List Event) : Option Event :=
  match events with
  | [] => none
  | e :: rest => some (pickBest (fun x => x.quality) e rest)

/-- One entry of `TrackProcessor.detections`: the tuple
`(frame, score, timestamp, bbox, landmarks, conf)`; only the quality score is
read by the selection, `did` tags the tuple. -/
structure Detection where
  did : ℕ
  score : ℚ
  deriving DecidableEq, Repr

/-- The best-detection selection of `TrackProcessor.process`:
`max(self.detections, key=lambda x: x[1])` (empty list short-circuits earlier). -/
def best_detection (detections : List Detection) : Option Detection :=
  match detections with
  | [] => none
  | d :: rest => some (pickBest (fun x => x.score) d rest)

lemma pickBest_cons {α : Type} (key : α → ℚ) (a x : α) (xs : List α) :
    pickBest key a (x :: xs) = pickBest key (if key a < key x then x else a) xs := rfl

lemma le_key_pickBest {α : Type} (key : α → ℚ) (a : α) (l : List α) :
    key a ≤ key (pickBest key a l) := by
  induction l generalizing a with
  | nil => exact le_refl _
  | cons x xs ih =>
    rw [pickBest_cons]
    by_cases h : key a < key x
    · rw [if_pos h]; exact le_of_lt (lt_of_lt_of_le h (ih x))
    · rw [if_neg h]; exact ih a

lemma pickBest_decomp {α : Type} (key : α → ℚ) (a : α) (l : List α) :
    ∃ l1 l2, a :: l = l1 ++ pickBest key a l :: l2 ∧
      (∀ x ∈ l1, key x < key (pickBest key a l)) ∧
      (∀ x ∈ l2, key x ≤ key (pickBest key a l)) := by
  induction l generalizing a with
  | nil => exact ⟨[], [], rfl, by simp, by simp⟩
  | cons x xs ih =>
    rw [pickBest_cons]
    by_cases h : key a < key x
    · rw [if_pos h]
      obtain ⟨l1, l2, heq, h1, h2⟩ := ih x
      refine ⟨a :: l1, l2, ?_, ?_, h2⟩
      · rw [List.cons_append, ← heq]
      · intro z hz
        rcases List.mem_cons.mp hz with hz | hz
        · subst hz
          exact lt_of_lt_of_le h (le_key_pickBest key x xs)
        · exact h1 z hz
    · rw [if_neg h]
      have hxa : key x ≤ key a := le_of_not_lt h
      obtain ⟨l1, l2, heq, h1, h2⟩ := ih a
      cases l1 with
      | nil =>
        have hba : pickBest key a xs = a := by
          have := congrArg (fun t => t.head?) heq
          simpa using this.symm
        have hxs : xs = l2 := by
          have := congrArg (fun t => t.tail) heq
          simpa [hba] using this
        refine ⟨[], x :: xs, by simp [hba], by simp, ?_⟩
        intro z hz
        rcases List.mem_cons.mp hz with hz | hz
        · subst hz; rw [hba]; exact hxa
        · rw [hxs] at hz; exact h2 z hz
      | cons c l1t =>
        have hc : c = a := by
          have := congrArg (fun t => t.head?) heq
          simpa using this.symm
        subst hc
        have hxs : xs = l1t ++ pickBest key c xs :: l2 := by
          have := congrArg (fun t => t.tail) heq
          simpa using this
        have hca : key c < key (pickBest key c xs) := h1 c (by simp)
        refine ⟨c :: x :: l1t, l2, ?_, ?_, h2⟩
        · rw [List.cons_append, List.cons_append, ← hxs]
        · intro z hz
          rcases List.mem_cons.mp hz with hz | hz
          · subst hz; exact hca
          · rcases List.mem_cons.mp hz with hz | hz
            · subst hz; exact lt_of_le_of_lt hxa hca
            · exact h1 z (by simp [hz])

lemma pickBest_first_max {α : Type} (key : α → ℚ) (a : α) (l : List α) :
    ∃ l1 l2, a :: l = l1 ++ pickBest key a l :: l2 ∧
      (∀ x ∈ a :: l, key x ≤ key (pickBest key a l)) ∧
      (∀ x ∈ l1, key x < key (pickBest key a l)) := by
  obtain ⟨l1, l2, heq, h1, h2⟩ := pickBest_decomp key a l
  refine ⟨l1, l2, heq, ?_, h1⟩
  intro z hz
  rw [heq] at hz
  rcases List.mem_append.mp hz with hz | hz
  · exact le_of_lt (h1 z hz)
  · rcases List.mem_cons.mp hz with hz | hz
    · subst hz; exact le_refl _
    · exact h2 z hz

/-- The geometric center of a bbox: `((x1 + x2) / 2.0, (y1 + y2) / 2.0)`. -/
def bboxCenter (b : Bbox) : ℚ × ℚ :=
  (((b.x1 : ℚ) + (b.x2 : ℚ)) / 2, ((b.y1 : ℚ) + (b.y2 : ℚ)) / 2)

/-- The centers of all the track's bboxes, in temporal (insertion) order. -/
def centers (events : List Event) : List (ℚ × ℚ) :=
  events.map (fun e => bboxCenter e.bbox)

/-- Squared planar distance between two centers. -/
def sqDist (p q : ℚ × ℚ) : ℚ := (q.1 - p.1) ^ 2 + (q.2 - p.2) ^ 2

/-- `math.sqrt((x2 - x1) ** 2 + (y2 - y1) ** 2)`: the source's Euclidean
distance between consecutive centers. -/
noncomputable def centerDist (p q : ℚ × ℚ) : ℝ := Real.sqrt ((sqDist p q : ℚ) : ℝ)

/-- `Track.has_movement`: a track with exactly one event counts as moving, one
with fewer than two events does not; otherwise the fraction of consecutive
center pairs whose distance reaches `min_threshold_pixels` is compared against
`min_frame_percentage`. -/
noncomputable def has_movement (events : List Event)
    (minThresholdPixels minFramePercentage : ℝ) : Bool :=
  if events.length = 1 then true
  else if events.length < 2 then false
  else
    let cs := centers events
    let pairs := cs.zip cs.tail
    let movementsDetected :=
      pairs.countP (fun pr => decide (minThresholdPixels ≤ centerDist pr.1 pr.2))
    let totalComparisons := cs.length - 1
    decide (minFramePercentage ≤ (movementsDetected : ℝ) / (totalComparisons : ℝ))

/-- The dictionary returned by `Track.get_movement_statistics`. -/
structure MovementStats where
  total_distance : ℝ
  average_distance : ℝ
  max_distance : ℝ
  min_distance : ℝ
  movement_detected : Bool

/-- Python `max(list)` on a nonempty list (fold of binary max over the head). -/
def listMax : List ℝ → ℝ
  | [] => 0
  | x :: xs => xs.foldl max x

/-- Python `min(list)` on a nonempty list. -/
def listMin : List ℝ → ℝ
  | [] => 0
  | x :: xs => xs.foldl min x

/-- The list of Euclidean distances between temporally consecutive centers. -/
noncomputable def distList (events : List Event) : List ℝ :=
  let cs := centers events
  (cs.zip cs.tail).map (fun pr => centerDist pr.1 pr.2)

/-- `Track.get_movement_statistics`: all-zero statistics with no movement for a
track with fewer than two events, otherwise total / average / max / min of the
consecutive-center distances, with `movement_detected = (max_distance > 0.0)`. -/
noncomputable def get_movement_statistics (events : List Event) : MovementStats :=
  if events.length < 2 then
    { total_distance := 0, average_distance := 0, max_distance := 0,
      min_distance := 0, movement_detected := false }
  else
    let distances := distList events
    let total := distances.sum
    { total_distance := total
      average_distance := total / (distances.length : ℝ)
      max_distance := listMax distances
      min_distance := listMin distances
      movement_detected := decide (0 < listMax distances) }

lemma length_centers (events : List Event) : (centers events).length = events.length :=
  List.length_map _ _

lemma length_zip_tail {α : Type} (l : List α) : (l.zip l.tail).length = l.length - 1 := by
  rw [List.length_zip, List.length_tail]
  exact min_eq_right (Nat.sub_le _ _)

lemma length_distList (events : List Event) :
    (distList events).length = events.length - 1 := by
  unfold distList
  rw [List.length_map, length_zip_tail, length_centers]

lemma foldl_max_mem {α : Type} [LinearOrder α] (x : α) (xs : List α) :
    xs.foldl max x ∈ x :: xs := by
  induction xs generalizing x with
  | nil => simp
  | cons y ys ih =>
    have := ih (max x y)
    rcases List.mem_cons.mp this with h | h
    · rcases max_choice x y with hm | hm <;> rw [List.foldl_cons, h, hm] <;> simp
    · simp [List.foldl_cons, List.mem_cons.mpr (Or.inr (List.mem_cons.mpr (Or.inr h)))]

lemma le_foldl_max {α : Type} [LinearOrder α] (x : α) (xs : List α) :
    ∀ y ∈ x :: xs, y ≤ xs.foldl max x := by
  induction xs generalizing x with
  | nil => intro y hy; simp at hy; simp [hy]
  | cons z zs ih =>
    intro y hy
    rw [List.foldl_cons]
    rcases List.mem_cons.mp hy with hy | hy
    · subst hy
      exact le_trans (le_max_left y z) (ih (max y z) _ (List.mem_cons_self _ _))
    · rcases List.mem_cons.mp hy with hy | hy
      · subst hy
        exact le_trans (le_max_right x y) (ih (max x y) _ (List.mem_cons_self _ _))
      · exact ih (max x z) y (List.mem_cons.mpr (Or.inr hy))

lemma foldl_min_mem {α : Type} [LinearOrder α] (x : α) (xs : List α) :
    xs.foldl min x ∈ x :: xs := by
  induction xs generalizing x with
  | nil => simp
  | cons y ys ih =>
    have := ih (min x y)
    rcases List.mem_cons.mp this with h | h
    · rcases min_choice x y with hm | hm <;> rw [List.foldl_cons, h, hm] <;> simp
    · simp [List.foldl_cons, List.mem_cons.mpr (Or.inr (List.mem_cons.mpr (Or.inr h)))]

lemma foldl_min_le {α : Type} [LinearOrder α] (x : α) (xs : List α) :
    ∀ y ∈ x :: xs, xs.foldl min x ≤ y := by
  induction xs generalizing x with
  | nil => intro y hy; simp at hy; simp [hy]
  | cons z zs ih =>
    intro y hy
    rw [List.foldl_cons]
    rcases List.mem_cons.mp hy with hy | hy
    · subst hy
      exact le_trans (ih (min y z) _ (List.mem_cons_self _ _)) (min_le_left y z)
    · rcases List.mem_cons.mp hy with hy | hy
      · subst hy
        exact le_trans (ih (min x y) _ (List.mem_cons_self _ _)) (min_le_right x y)
      · exact ih (min x z) y (List.mem_cons.mpr (Or.inr hy))

lemma listMax_mem (l : List ℝ) (hl : l ≠ []) : listMax l ∈ l := by
  match l with
  | x :: xs => exact foldl_max_mem x xs

lemma le_listMax (l : List ℝ) : ∀ y ∈ l, y ≤ listMax l := by
  match l with
  | [] => intro y hy; simp at hy
  | x :: xs => exact le_foldl_max x xs

lemma listMin_mem (l : List ℝ) (hl : l ≠ []) : listMin l ∈ l := by
  match l with
  | x :: xs => exact foldl_min_mem x xs

lemma listMin_le (l : List ℝ) : ∀ y ∈ l, listMin l ≤ y := by
  match l with
  | [] => intro y hy; simp at hy
  | x :: xs => exact foldl_min_le x xs

end TrackEntity

namespace DetectorService

open TrackEntity

/-- Python dict lookup on an insertion-ordered association list. -/
def lookupA {α : Type} (k : ℤ) : List (ℤ × α) → Option α
  | [] => none
  | kv :: rest => if kv.1 = k then some kv.2 else lookupA k rest

/-- Python dict assignment `d[k] = v`: update the existing entry in place,
else append a new one. -/
def setA {α : Type} (k : ℤ) (v : α) : List (ℤ × α) → List (ℤ × α)
  | [] => [(k, v)]
  | kv :: rest => if kv.1 = k then (k, v) :: rest else kv :: setA k v rest

/-- Python `del d[k]` under the unique-key discipline of a dict. -/
def eraseA {α : Type} (k : ℤ) (l : List (ℤ × α)) : List (ℤ × α) :=
  l.filter (fun kv => decide (kv.1 ≠ k))

lemma lookupA_setA_self {α : Type} (k : ℤ) (v : α) (l : List (ℤ × α)) :
    lookupA k (setA k v l) = some v := by
  induction l with
  | nil => simp [setA, lookupA]
  | cons kv rest ih =>
    by_cases h : kv.1 = k
    · simp [setA, h, lookupA]
    · simp [setA, h, lookupA, ih]

lemma lookupA_setA_ne {α : Type} {k k2 : ℤ} (v : α) (l : List (ℤ × α)) (h : k2 ≠ k) :
    lookupA k2 (setA k v l) = lookupA k2 l := by
  have hne : ¬(k = k2) := fun he => h he.symm
  induction l with
  | nil => simp [setA, lookupA, hne]
  | cons kv rest ih =>
    by_cases hk : kv.1 = k
    · have hne2 : ¬(kv.1 = k2) := by rw [hk]; exact hne
      simp [setA, hk, lookupA, hne, hne2]
    · simp [setA, hk, lookupA, ih]

lemma lookupA_eraseA_self {α : Type} (k : ℤ) (l : List (ℤ × α)) :
    lookupA k (eraseA k l) = none := by
  induction l with
  | nil => simp [eraseA, lookupA]
  | cons kv rest ih =>
    by_cases h : kv.1 = k
    · simpa [eraseA, List.filter_cons, h] using ih
    · simpa [eraseA, List.filter_cons, h, lookupA] using ih

lemma lookupA_eraseA_ne {α : Type} {k k2 : ℤ} (l : List (ℤ × α)) (h : k2 ≠ k) :
    lookupA k2 (eraseA k l) = lookupA k2 l := by
  induction l with
  | nil => simp [eraseA, lookupA]
  | cons kv rest ih =>
    have hne : ¬(k = k2) := fun he => h he.symm
    by_cases hk : kv.1 = k
    · have hne2 : ¬(kv.1 = k2) := by rw [hk]; exact hne
      simpa [eraseA, List.filter_cons, hk, lookupA, hne, hne2] using ih
    · by_cases hk2 : kv.1 = k2
      · simp [eraseA, List.filter_cons, hk, lookupA, hk2, h]
      · simpa [eraseA, List.filter_cons, hk, lookupA, hk2] using ih

lemma lookupA_eraseA_none {α : Type} {k : ℤ} (k2 : ℤ) (l : List (ℤ × α))
    (h : lookupA k2 l = none) : lookupA k2 (eraseA k l) = none := by
  by_cases he : k2 = k
  · subst he; exact lookupA_eraseA_self k2 l
  · rw [lookupA_eraseA_ne l he]; exact h

lemma lookupA_mem {α : Type} {k : ℤ} {v : α} {l : List (ℤ × α)}
    (h : lookupA k l = some v) : (k, v) ∈ l := by
  induction l with
  | nil => simp [lookupA] at h
  | cons kv rest ih =>
    by_cases hk : kv.1 = k
    · rw [lookupA, if_pos hk] at h
      obtain ⟨kk, vv⟩ := kv
      simp only at hk
      injection h with h2
      rw [List.mem_cons]
      exact Or.inl (by rw [← hk, ← h2])
    · rw [lookupA, if_neg hk] at h
      exact List.mem_cons.mpr (Or.inr (ih h))

lemma lookupA_eq_none_iff {α : Type} (k : ℤ) (l : List (ℤ × α)) :
    lookupA k l = none ↔ ∀ v, (k, v) ∉ l := by
  induction l with
  | nil => simp [lookupA]
  | cons kv rest ih =>
    by_cases hk : kv.1 = k
    · simp only [lookupA, if_pos hk]
      constructor
      · intro h; exact absurd h (by simp)
      · intro h
        refine absurd ?_ (h kv.2)
        rw [List.mem_cons]
        exact Or.inl (by obtain ⟨kk, vv⟩ := kv; simp only at hk; rw [hk])
    · simp only [lookupA, if_neg hk, ih]
      constructor
      · intro h v hv
        rcases List.mem_cons.mp hv with hv | hv
        · exact hk (by rw [← hv])
        · exact h v hv
      · intro h v hv
        exact h v (List.mem_cons.mpr (Or.inr hv))

/-- The mutable maps of `ByteTrackDetectorService`: `active_tracks` (identity to
the track's event list) and `track_frames_lost` (identity to miss-counter),
both insertion-ordered dicts. -/
structure DetectorState where
  active_tracks : List (ℤ × List Event)
  track_frames_lost : List (ℤ × ℕ)
  deriving DecidableEq, Repr

/-- The configuration fields of `ByteTrackDetectorService` consulted during
finalization and eviction. -/
structure ServiceConfig where
  max_frames_lost : ℕ
  adapterPresent : Bool
  min_movement_threshold : ℝ
  min_movement_percentage : ℝ

/-- One detection applied to the track table, as in the per-detection body of
`ByteTrackDetectorService._process_stream`: create the track on first sighting
(`Track(id=IdVO(track_id), events=[])`), append the event
(`add_event`), and reset the lost counter (`track_frames_lost[track_id] = 0`). -/
def observe (st : DetectorState) (trackId : ℤ) (e : Event) : DetectorState :=
  let tracks0 :=
    match lookupA trackId st.active_tracks with
    | none => setA trackId [] st.active_tracks
    | some _ => st.active_tracks
  let evs := (lookupA trackId tracks0).getD []
  { active_tracks := setA trackId (evs ++ [e]) tracks0
    track_frames_lost := setA trackId 0 st.track_frames_lost }

/-- Failure oracle for the two sink calls: whether the local `cv2.imwrite` path
raises, whether `findface_adapter.send_event` raises, and whether its response
is falsy. -/
structure SinkOracle where
  saveFails : Bool
  sendFails : Bool
  emptyResponse : Bool
  deriving DecidableEq, Repr

/-- The log lines emitted by `_finalize_track` and its two sink helpers. -/
inductive LogEntry where
  | savedOk (trackId : ℤ)
  | saveError (trackId : ℤ)
  | sentOk (trackId : ℤ)
  | sentEmptyResponse (trackId : ℤ)
  | sendError (trackId : ℤ)
  | discardedNoMovement (trackId : ℤ)
  | emptyTrackWarning (trackId : ℤ)
  | noBestEventWarning (trackId : ℤ)
  deriving DecidableEq, Repr

/-- `_save_best_event`: its whole body is wrapped in one try/except, so a
persistence failure is caught inside, only logged, and nothing is written;
on success the annotated image (event plus movement tag) is written. -/
def save_best_event (saveFails : Bool) (trackId : ℤ) (e : Event) (hasMovement : Bool) :
    Option (ℤ × Event × Bool) × List LogEntry :=
  if saveFails then (none, [.saveError trackId])
  else (some (trackId, e, hasMovement), [.savedOk trackId])

/-- `_send_best_event_to_findface`: likewise fully wrapped in one try/except;
a raised exception is logged as an error, a falsy response as a warning. -/
def send_best_event_to_findface (sendFails emptyResponse : Bool) (trackId : ℤ) (e : Event) :
    Option (ℤ × Event) × List LogEntry :=
  if sendFails then (none, [.sendError trackId])
  else
    (some (trackId, e),
      if emptyResponse then [.sentEmptyResponse trackId] else [.sentOk trackId])

/-- The outward effect of one `_finalize_track` call: the track handed to
finalization (if any), the local file written, the remote submission made, and
the log lines. -/
structure FinalizeEffect where
  finalized : Option (ℤ × List Event)
  saved : Option (ℤ × Event × Bool)
  sent : Option (ℤ × Event)
  logs : List LogEntry
  deriving DecidableEq, Repr

def noEffect : FinalizeEffect := ⟨none, none, none, []⟩

/-- `ByteTrackDetectorService._finalize_track`: a no-op for unknown identities;
an empty track is deleted with a warning; otherwise movement is classified,
both map entries are deleted first, the best event is selected, saved locally,
and sent to FindFace only when the adapter exists and movement was detected
(a still track is logged as discarded). -/
noncomputable def finalize_track (cfg : ServiceConfig) (o : SinkOracle)
    (st : DetectorState) (trackId : ℤ) : DetectorState × FinalizeEffect :=
  match lookupA trackId st.active_tracks with
  | none => (st, noEffect)
  | some track =>
    let st2 : DetectorState :=
      { active_tracks := eraseA trackId st.active_tracks
        track_frames_lost := eraseA trackId st.track_frames_lost }
    if track.isEmpty then
      (st2, { noEffect with logs := [.emptyTrackWarning trackId] })
    else
      let hasMov :=
        has_movement track cfg.min_movement_threshold cfg.min_movement_percentage
      match get_best_event track with
      | none => (st2, { noEffect with logs := [.noBestEventWarning trackId] })
      | some best =>
        let saveR := save_best_event o.saveFails trackId best hasMov
        if cfg.adapterPresent && hasMov then
          let sendR := send_best_event_to_findface o.sendFails o.emptyResponse trackId best
          (st2, ⟨some (trackId, track), saveR.1, sendR.1, saveR.2 ++ sendR.2⟩)
        else if !hasMov then
          (st2, ⟨some (trackId, track), saveR.1, none,
            saveR.2 ++ [.discardedNoMovement trackId]⟩)
        else
          (st2, ⟨some (trackId, track), saveR.1, none, saveR.2⟩)

/-- The shared finalization loop: finalize the listed identities in order,
accumulating their effects. -/
noncomputable def finalizeFold (cfg : ServiceConfig) (o : SinkOracle)
    (st : DetectorState) (ids : List ℤ) (effs : List FinalizeEffect) :
    DetectorState × List FinalizeEffect :=
  ids.foldl
    (fun acc tid =>
      ((finalize_track cfg o acc.1 tid).1, acc.2 ++ [(finalize_track cfg o acc.1 tid).2]))
    (st, effs)

/-- The absentee pass of `_update_lost_tracks`: increment the lost counter of
every identity missing from the current frame's track set. -/
def tickLost (present : List ℤ) (l : List (ℤ × ℕ)) : List (ℤ × ℕ) :=
  l.map (fun kc => if kc.1 ∈ present then kc else (kc.1, kc.2 + 1))

/-- `ByteTrackDetectorService._update_lost_tracks`: walk the lost-counter keys,
increment the absentees, collect every identity whose counter reached
`max_frames_lost`, then finalize them in table order. -/
noncomputable def update_lost_tracks (cfg : ServiceConfig) (o : SinkOracle)
    (st : DetectorState) (present : List ℤ) : DetectorState × List FinalizeEffect :=
  let lost2 := tickLost present st.track_frames_lost
  let toFinalize :=
    (lost2.filter
        (fun kc => decide (kc.1 ∉ present) && decide (cfg.max_frames_lost ≤ kc.2))).map
      (fun kc => kc.1)
  finalizeFold cfg o
    { active_tracks := st.active_tracks, track_frames_lost := lost2 } toFinalize []

/-- `ByteTrackDetectorService._finalize_all_tracks`: finalize every identity in
a snapshot of the active-track keys. -/
noncomputable def finalize_all_tracks (cfg : ServiceConfig) (o : SinkOracle)
    (st : DetectorState) : DetectorState × List FinalizeEffect :=
  finalizeFold cfg o st (st.active_tracks.map (fun kv => kv.1)) []

lemma finalize_track_not_found {cfg : ServiceConfig} {o : SinkOracle} {st : DetectorState}
    {tid : ℤ} (h : lookupA tid st.active_tracks = none) :
    finalize_track cfg o st tid = (st, noEffect) := by
  unfold finalize_track
  rw [h]

lemma get_best_event_of_ne_nil {track : List Event} (hne : track ≠ []) :
    ∃ best, get_best_event track = some best := by
  match track with
  | e :: rest => exact ⟨_, rfl⟩

lemma finalize_track_found {cfg : ServiceConfig} {o : SinkOracle} {st : DetectorState}
    {tid : ℤ} {track : List Event} (h : lookupA tid st.active_tracks = some track) :
    (finalize_track cfg o st tid).1 =
      ⟨eraseA tid st.active_tracks, eraseA tid st.track_frames_lost⟩ := by
  unfold finalize_track
  rw [h]
  by_cases hemp : track.isEmpty
  · simp only [hemp, if_true]
  · simp only [hemp, if_false]
    cases hbe : get_best_event track with
    | none => rfl
    | some best =>
      dsimp only
      split_ifs <;> rfl

lemma finalize_track_effect_finalized {cfg : ServiceConfig} {o : SinkOracle}
    {st : DetectorState} {tid : ℤ} {track : List Event}
    (h : lookupA tid st.active_tracks = some track) (hne : track ≠ []) :
    (finalize_track cfg o st tid).2.finalized = some (tid, track) := by
  unfold finalize_track
  rw [h]
  have hemp : track.isEmpty = false := by
    cases track with
    | nil => exact absurd rfl hne
    | cons e rest => rfl
  simp only [hemp, Bool.false_eq_true, if_false]
  obtain ⟨best, hbe⟩ := get_best_event_of_ne_nil hne
  rw [hbe]
  dsimp only
  split_ifs <;> rfl

lemma finalize_track_effect_key {cfg : ServiceConfig} {o : SinkOracle}
    {st : DetectorState} {tid : ℤ} :
    (finalize_track cfg o st tid).2.finalized = none ∨
      ∃ trk, (finalize_track cfg o st tid).2.finalized = some (tid, trk) := by
  unfold finalize_track
  cases hlk : lookupA tid st.active_tracks with
  | none => exact Or.inl rfl
  | some track =>
    dsimp only
    by_cases hemp : track.isEmpty
    · simp only [hemp, if_true]
      exact Or.inl rfl
    · have hempf : track.isEmpty = false := by
        cases hb : track.isEmpty
        · rfl
        · exact absurd hb hemp
      simp only [hempf, Bool.false_eq_true, if_false]
      cases hbe : get_best_event track with
      | none => exact Or.inl rfl
      | some best =>
        dsimp only
        refine Or.inr ⟨track, ?_⟩
        split_ifs <;> rfl

lemma finalize_track_active_self {cfg : ServiceConfig} {o : SinkOracle}
    {st : DetectorState} {tid : ℤ} :
    lookupA tid (finalize_track cfg o st tid).1.active_tracks = none := by
  cases hlk : lookupA tid st.active_tracks with
  | none => rw [finalize_track_not_found hlk]; exact hlk
  | some track =>
    rw [finalize_track_found hlk]
    exact lookupA_eraseA_self tid st.active_tracks

lemma finalize_track_lost_self {cfg : ServiceConfig} {o : SinkOracle}
    {st : DetectorState} {tid : ℤ} {track : List Event}
    (h : lookupA tid st.active_tracks = some track) :
    lookupA tid (finalize_track cfg o st tid).1.track_frames_lost = none := by
  rw [finalize_track_found h]
  exact lookupA_eraseA_self tid st.track_frames_lost

lemma finalize_track_active_ne {cfg : ServiceConfig} {o : SinkOracle}
    {st : DetectorState} {tid k : ℤ} (h : k ≠ tid) :
    lookupA k (finalize_track cfg o st tid).1.active_tracks =
      lookupA k st.active_tracks := by
  cases hlk : lookupA tid st.active_tracks with
  | none => rw [finalize_track_not_found hlk]
  | some track =>
    rw [finalize_track_found hlk]
    exact lookupA_eraseA_ne st.active_tracks h

lemma finalize_track_lost_ne {cfg : ServiceConfig} {o : SinkOracle}
    {st : DetectorState} {tid k : ℤ} (h : k ≠ tid) :
    lookupA k (finalize_track cfg o st tid).1.track_frames_lost =
      lookupA k st.track_frames_lost := by
  cases hlk : lookupA tid st.active_tracks with
  | none => rw [finalize_track_not_found hlk]
  | some track =>
    rw [finalize_track_found hlk]
    exact lookupA_eraseA_ne st.track_frames_lost h

lemma finalize_track_active_mono {cfg : ServiceConfig} {o : SinkOracle}
    {st : DetectorState} {tid k : ℤ} (h : lookupA k st.active_tracks = none) :
    lookupA k (finalize_track cfg o st tid).1.active_tracks = none := by
  by_cases hk : k = tid
  · subst hk; exact finalize_track_active_self
  · rw [finalize_track_active_ne hk]; exact h

lemma finalize_track_lost_mono {cfg : ServiceConfig} {o : SinkOracle}
    {st : DetectorState} {tid k : ℤ} (h : lookupA k st.track_frames_lost = none) :
    lookupA k (finalize_track cfg o st tid).1.track_frames_lost = none := by
  cases hlk : lookupA tid st.active_tracks with
  | none => rw [finalize_track_not_found hlk]; exact h
  | some track =>
    rw [finalize_track_found hlk]
    exact lookupA_eraseA_none k st.track_frames_lost h

lemma finalizeFold_nil (cfg : ServiceConfig) (o : SinkOracle) (st : DetectorState)
    (effs : List FinalizeEffect) : finalizeFold cfg o st [] effs = (st, effs) := rfl

lemma finalizeFold_cons (cfg : ServiceConfig) (o : SinkOracle) (st : DetectorState)
    (i : ℤ) (ids : List ℤ) (effs : List FinalizeEffect) :
    finalizeFold cfg o st (i :: ids) effs =
      finalizeFold cfg o (finalize_track cfg o st i).1 ids
        (effs ++ [(finalize_track cfg o st i).2]) := rfl

lemma finalizeFold_append_ids (cfg : ServiceConfig) (o : SinkOracle) (st : DetectorState)
    (ids1 ids2 : List ℤ) (effs : List FinalizeEffect) :
    finalizeFold cfg o st (ids1 ++ ids2) effs =
      finalizeFold cfg o (finalizeFold cfg o st ids1 effs).1 ids2
        (finalizeFold cfg o st ids1 effs).2 := by
  unfold finalizeFold
  rw [List.foldl_append]

lemma finalizeFold_effs_mono (cfg : ServiceConfig) (o : SinkOracle) :
    ∀ (ids : List ℤ) (st : DetectorState) (effs1 effs2 : List FinalizeEffect),
    (finalizeFold cfg o st ids (effs1 ++ effs2)).2 =
        effs1 ++ (finalizeFold cfg o st ids effs2).2 ∧
      (finalizeFold cfg o st ids (effs1 ++ effs2)).1 =
        (finalizeFold cfg o st ids effs2).1 := by
  intro ids
  induction ids with
  | nil => intro st effs1 effs2; exact ⟨rfl, rfl⟩
  | cons i ids ih =>
    intro st effs1 effs2
    rw [finalizeFold_cons, finalizeFold_cons, List.append_assoc]
    exact ih _ _ _

lemma finalizeFold_active_none (cfg : ServiceConfig) (o : SinkOracle) {k : ℤ} :
    ∀ (ids : List ℤ) (st : DetectorState) (effs : List FinalizeEffect),
    lookupA k st.active_tracks = none →
    lookupA k (finalizeFold cfg o st ids effs).1.active_tracks = none := by
  intro ids
  induction ids with
  | nil => intro st effs h; exact h
  | cons i ids ih =>
    intro st effs h
    rw [finalizeFold_cons]
    exact ih _ _ (finalize_track_active_mono h)

lemma finalizeFold_lost_none (cfg : ServiceConfig) (o : SinkOracle) {k : ℤ} :
    ∀ (ids : List ℤ) (st : DetectorState) (effs : List FinalizeEffect),
    lookupA k st.track_frames_lost = none →
    lookupA k (finalizeFold cfg o st ids effs).1.track_frames_lost = none := by
  intro ids
  induction ids with
  | nil => intro st effs h; exact h
  | cons i ids ih =>
    intro st effs h
    rw [finalizeFold_cons]
    exact ih _ _ (finalize_track_lost_mono h)

lemma finalizeFold_not_mem_active (cfg : ServiceConfig) (o : SinkOracle) {k : ℤ} :
    ∀ (ids : List ℤ) (st : DetectorState) (effs : List FinalizeEffect), k ∉ ids →
    lookupA k (finalizeFold cfg o st ids effs).1.active_tracks =
      lookupA k st.active_tracks := by
  intro ids
  induction ids with
  | nil => intro st effs _; rfl
  | cons i ids ih =>
    intro st effs hnm
    rw [finalizeFold_cons]
    rw [ih _ _ (fun hm => hnm (List.mem_cons.mpr (Or.inr hm)))]
    exact finalize_track_active_ne (fun he => hnm (List.mem_cons.mpr (Or.inl he)))

lemma finalizeFold_not_mem_lost (cfg : ServiceConfig) (o : SinkOracle) {k : ℤ} :
    ∀ (ids : List ℤ) (st : DetectorState) (effs : List FinalizeEffect), k ∉ ids →
    lookupA k (finalizeFold cfg o st ids effs).1.track_frames_lost =
      lookupA k st.track_frames_lost := by
  intro ids
  induction ids with
  | nil => intro st effs _; rfl
  | cons i ids ih =>
    intro st effs hnm
    rw [finalizeFold_cons]
    rw [ih _ _ (fun hm => hnm (List.mem_cons.mpr (Or.inr hm)))]
    exact finalize_track_lost_ne (fun he => hnm (List.mem_cons.mpr (Or.inl he)))

lemma finalizeFold_no_tid_effect (cfg : ServiceConfig) (o : SinkOracle) {tid : ℤ} :
    ∀ (ids : List ℤ) (st : DetectorState) (effs : List FinalizeEffect), tid ∉ ids →
    (∀ ef ∈ effs, ∀ pr : ℤ × List Event, ef.finalized = some pr → pr.1 ≠ tid) →
    ∀ ef ∈ (finalizeFold cfg o st ids effs).2, ∀ pr : ℤ × List Event,
      ef.finalized = some pr → pr.1 ≠ tid := by
  intro ids
  induction ids with
  | nil => intro st effs _ hbase; exact hbase
  | cons i ids ih =>
    intro st effs hnm hbase
    rw [finalizeFold_cons]
    refine ih _ _ (fun hm => hnm (List.mem_cons.mpr (Or.inr hm))) ?_
    intro ef hef pr hpr
    rcases List.mem_append.mp hef with hef | hef
    · exact hbase ef hef pr hpr
    · have heq : ef = (finalize_track cfg o st i).2 := List.mem_singleton.mp hef
      subst heq
      rcases @finalize_track_effect_key cfg o st i with
        hnone | ⟨trk, hsome⟩
      · rw [hnone] at hpr
        exact absurd hpr (by simp)
      · rw [hsome] at hpr
        injection hpr with h2
        intro hcontr
        apply hnm
        rw [List.mem_cons]
        exact Or.inl (by rw [← hcontr, ← h2])

lemma mem_nodup_split {α : Type} {a : α} {l : List α}
    (hm : a ∈ l) (hnd : l.Nodup) :
    ∃ l1 l2, l = l1 ++ a :: l2 ∧ a ∉ l1 ∧ a ∉ l2 := by
  obtain ⟨l1, l2, rfl⟩ := List.append_of_mem hm
  rw [List.nodup_append] at hnd
  obtain ⟨h1, h2, hdisj⟩ := hnd
  rw [List.nodup_cons] at h2
  refine ⟨l1, l2, rfl, ?_, h2.1⟩
  intro hin
  exact hdisj hin (List.mem_cons_self a l2)

lemma tickLost_keys (present : List ℤ) (l : List (ℤ × ℕ)) :
    (tickLost present l).map (fun kv => kv.1) = l.map (fun kv => kv.1) := by
  induction l with
  | nil => rfl
  | cons kc rest ih =>
    by_cases h : kc.1 ∈ present
    · simp only [tickLost, List.map_cons, if_pos h] at ih ⊢
      rw [ih]
    · simp only [tickLost, List.map_cons, if_neg h] at ih ⊢
      rw [ih]

lemma tickLost_lookup_absent {present : List ℤ} {l : List (ℤ × ℕ)} {tid : ℤ} {c : ℕ}
    (habs : tid ∉ present) (h : lookupA tid l = some c) :
    lookupA tid (tickLost present l) = some (c + 1) := by
  induction l with
  | nil => simp [lookupA] at h
  | cons kc rest ih =>
    by_cases hk : kc.1 = tid
    · rw [lookupA, if_pos hk] at h
      injection h with h2
      have hp : kc.1 ∉ present := by rw [hk]; exact habs
      simp only [tickLost, List.map_cons, if_neg hp]
      rw [lookupA, if_pos hk, h2]
    · rw [lookupA, if_neg hk] at h
      by_cases hp : kc.1 ∈ present
      · simp only [tickLost, List.map_cons, if_pos hp]
        rw [lookupA, if_neg hk]
        exact ih h
      · simp only [tickLost, List.map_cons, if_neg hp]
        rw [lookupA, if_neg hk]
        exact ih h

lemma observe_fresh {st : DetectorState} {tid : ℤ} (e : Event)
    (h : lookupA tid st.active_tracks = none) :
    lookupA tid (observe st tid e).active_tracks = some [e] := by
  unfold observe
  rw [h]
  dsimp only
  rw [lookupA_setA_self tid ([] : List Event) st.active_tracks]
  dsimp only [Option.getD]
  rw [List.nil_append]
  exact lookupA_setA_self tid [e] (setA tid [] st.active_tracks)

lemma lookupA_none_of_not_mem_keys {α : Type} {k : ℤ} {l : List (ℤ × α)}
    (h : k ∉ l.map (fun kv => kv.1)) : lookupA k l = none := by
  induction l with
  | nil => rfl
  | cons kv rest ih =>
    rw [lookupA, if_neg (fun he => h (by rw [List.map_cons, List.mem_cons]; exact Or.inl he.symm))]
    exact ih (fun hm => h (by rw [List.map_cons, List.mem_cons]; exact Or.inr hm))

lemma eq_nil_of_lookupA_none {α : Type} {l : List (ℤ × α)}
    (h : ∀ k, lookupA k l = none) : l = [] := by
  cases l with
  | nil => rfl
  | cons kv rest =>
    have := h kv.1
    rw [lookupA, if_pos rfl] at this
    exact absurd this (by simp)

lemma eraseA_cons_self {α : Type} {k : ℤ} {v : α} {rest : List (ℤ × α)}
    (hnm : ∀ kv ∈ rest, kv.1 ≠ k) : eraseA k ((k, v) :: rest) = rest := by
  unfold eraseA
  rw [List.filter_cons, if_neg (by simp)]
  exact List.filter_eq_self.mpr (fun kv hm => by simp [hnm kv hm])

lemma finalizeFold_drain (cfg : ServiceConfig) (o : SinkOracle) :
    ∀ (act : List (ℤ × List Event)) (lost : List (ℤ × ℕ)) (effs0 : List FinalizeEffect),
    (act.map (fun kv => kv.1)).Nodup →
    (∀ k, lookupA k act = none ↔ lookupA k lost = none) →
    (∀ kv ∈ act, kv.2 ≠ []) →
    (finalizeFold cfg o ⟨act, lost⟩ (act.map (fun kv => kv.1)) effs0).1 =
        (⟨[], []⟩ : DetectorState) ∧
      (finalizeFold cfg o ⟨act, lost⟩ (act.map (fun kv => kv.1)) effs0).2.filterMap
          (fun ef => ef.finalized) =
        effs0.filterMap (fun ef => ef.finalized) ++ act := by
  intro act
  induction act with
  | nil =>
    intro lost effs0 hnd hsame hne
    have hlost : lost = [] := eq_nil_of_lookupA_none (fun k => (hsame k).mp rfl)
    subst hlost
    exact ⟨rfl, by simp [finalizeFold_nil]⟩
  | cons kv rest ih =>
    intro lost effs0 hnd hsame hne
    obtain ⟨k, trk⟩ := kv
    have hnmrest : ∀ kv2 ∈ rest, kv2.1 ≠ k := by
      intro kv2 hm he
      rw [List.map_cons, List.nodup_cons] at hnd
      exact hnd.1 (he ▸ List.mem_map.mpr ⟨kv2, hm, rfl⟩)
    have hlk : lookupA k ((k, trk) :: rest) = some trk := by rw [lookupA, if_pos rfl]
    have htrkne : trk ≠ [] := hne (k, trk) (List.mem_cons_self _ _)
    have hstate := @finalize_track_found cfg o ⟨(k, trk) :: rest, lost⟩ k trk hlk
    have heff := @finalize_track_effect_finalized cfg o ⟨(k, trk) :: rest, lost⟩ k trk hlk htrkne
    have herase : eraseA k ((k, trk) :: rest) = rest := eraseA_cons_self hnmrest
    rw [List.map_cons, finalizeFold_cons]
    have hstA : (finalize_track cfg o ⟨(k, trk) :: rest, lost⟩ k).1 =
        ⟨rest, eraseA k lost⟩ := by
      rw [hstate, herase]
    rw [hstA]
    have hsame2 : ∀ k2, lookupA k2 rest = none ↔ lookupA k2 (eraseA k lost) = none := by
      intro k2
      by_cases hk2 : k2 = k
      · subst hk2
        constructor
        · intro _; exact lookupA_eraseA_self k2 lost
        · intro _
          exact lookupA_none_of_not_mem_keys
            (fun hm => by
              obtain ⟨kv2, hkv2, hfst⟩ := List.mem_map.mp hm
              exact hnmrest kv2 hkv2 hfst)
      · rw [lookupA_eraseA_ne lost hk2]
        have : lookupA k2 ((k, trk) :: rest) = lookupA k2 rest := by
          rw [lookupA, if_neg (fun he => hk2 he.symm)]
        rw [← this]
        exact hsame k2
    have hnd2 : (rest.map (fun kv => kv.1)).Nodup := by
      rw [List.map_cons, List.nodup_cons] at hnd
      exact hnd.2
    have hne2 : ∀ kv ∈ rest, kv.2 ≠ [] :=
      fun kv hm => hne kv (List.mem_cons.mpr (Or.inr hm))
    obtain ⟨ihs, ihe⟩ := ih (eraseA k lost)
      (effs0 ++ [(finalize_track cfg o ⟨(k, trk) :: rest, lost⟩ k).2]) hnd2 hsame2 hne2
    refine ⟨ihs, ?_⟩
    rw [ihe, List.filterMap_append]
    simp only [List.filterMap, heff]
    rw [List.append_assoc, List.singleton_append]

/-- C2: once an identity's miss-counter reaches `max_frames_lost` during
`_update_lost_tracks` it is evicted exactly once — its track is handed to
finalization exactly once and both map entries are removed — it is afterwards
absent from the table, and re-observing the same identity creates a brand-new
track holding only the new observation. -/
theorem C2_eviction_exactly_once
    (cfg : ServiceConfig) (o : SinkOracle)
    (st : DetectorState) (present : List ℤ)
    (tid : ℤ) (c : ℕ) (track : List Event) (e : Event)
    (hnodup : (st.track_frames_lost.map (fun kv => kv.1)).Nodup)
    (hc : lookupA tid st.track_frames_lost = some c)
    (habs : tid ∉ present)
    (hthr : cfg.max_frames_lost ≤ c + 1)
    (htrk : lookupA tid st.active_tracks = some track)
    (hne : track ≠ []) :
    lookupA tid (update_lost_tracks cfg o st present).1.active_tracks = none ∧
    lookupA tid (update_lost_tracks cfg o st present).1.track_frames_lost = none ∧
    (∃ effs1 eff effs2,
      (update_lost_tracks cfg o st present).2 = effs1 ++ eff :: effs2 ∧
      eff.finalized = some (tid, track) ∧
      (∀ ef ∈ effs1, ∀ pr : ℤ × List Event, ef.finalized = some pr → pr.1 ≠ tid) ∧
      (∀ ef ∈ effs2, ∀ pr : ℤ × List Event, ef.finalized = some pr → pr.1 ≠ tid)) ∧
    lookupA tid (observe (update_lost_tracks cfg o st present).1 tid e).active_tracks =
      some [e] := by
  have hu : update_lost_tracks cfg o st present =
      finalizeFold cfg o
        ⟨st.active_tracks, tickLost present st.track_frames_lost⟩
        (((tickLost present st.track_frames_lost).filter
            (fun kc => decide (kc.1 ∉ present) && decide (cfg.max_frames_lost ≤ kc.2))).map
          (fun kc => kc.1)) [] := rfl
  have htick : lookupA tid (tickLost present st.track_frames_lost) = some (c + 1) :=
    tickLost_lookup_absent habs hc
  have hmem2 : (tid, c + 1) ∈ tickLost present st.track_frames_lost := lookupA_mem htick
  have hPmem : (tid, c + 1) ∈ (tickLost present st.track_frames_lost).filter
      (fun kc => decide (kc.1 ∉ present) && decide (cfg.max_frames_lost ≤ kc.2)) :=
    List.mem_filter.mpr ⟨hmem2, by simp [habs, hthr]⟩
  have hmemids : tid ∈ ((tickLost present st.track_frames_lost).filter
      (fun kc => decide (kc.1 ∉ present) && decide (cfg.max_frames_lost ≤ kc.2))).map
        (fun kc => kc.1) :=
    List.mem_map.mpr ⟨(tid, c + 1), hPmem, rfl⟩
  have hndids : (((tickLost present st.track_frames_lost).filter
      (fun kc => decide (kc.1 ∉ present) && decide (cfg.max_frames_lost ≤ kc.2))).map
        (fun kc => kc.1)).Nodup := by
    have hsub := (List.filter_sublist
      (p := fun kc : ℤ × ℕ => decide (kc.1 ∉ present) && decide (cfg.max_frames_lost ≤ kc.2))
      (tickLost present st.track_frames_lost)).map (fun kv : ℤ × ℕ => kv.1)
    have hkeys : (tickLost present st.track_frames_lost).map (fun kv => kv.1) =
        st.track_frames_lost.map (fun kv => kv.1) :=
      tickLost_keys present st.track_frames_lost
    refine List.Nodup.sublist hsub ?_
    rw [hkeys]
    exact hnodup
  obtain ⟨ids1, ids2, hsplit, hn1, hn2⟩ := mem_nodup_split hmemids hndids
  rw [hsplit] at hu
  have hstep : finalizeFold cfg o
      ⟨st.active_tracks, tickLost present st.track_frames_lost⟩ (ids1 ++ tid :: ids2) [] =
      finalizeFold cfg o
        (finalize_track cfg o
          (finalizeFold cfg o
            ⟨st.active_tracks, tickLost present st.track_frames_lost⟩ ids1 []).1 tid).1
        ids2
        ((finalizeFold cfg o
            ⟨st.active_tracks, tickLost present st.track_frames_lost⟩ ids1 []).2 ++
          [(finalize_track cfg o
            (finalizeFold cfg o
              ⟨st.active_tracks, tickLost present st.track_frames_lost⟩ ids1 []).1 tid).2]) := by
    rw [finalizeFold_append_ids, finalizeFold_cons]
  rw [hstep] at hu
  have hact1 : lookupA tid
      (finalizeFold cfg o
        ⟨st.active_tracks, tickLost present st.track_frames_lost⟩ ids1 []).1.active_tracks =
      some track := by
    rw [finalizeFold_not_mem_active cfg o ids1 _ [] hn1]
    exact htrk
  have heffkey : (finalize_track cfg o
      (finalizeFold cfg o
        ⟨st.active_tracks, tickLost present st.track_frames_lost⟩ ids1 []).1 tid).2.finalized =
      some (tid, track) :=
    finalize_track_effect_finalized hact1 hne
  have hfin_active :
      lookupA tid (update_lost_tracks cfg o st present).1.active_tracks = none := by
    rw [hu]
    exact finalizeFold_active_none cfg o ids2 _ _ finalize_track_active_self
  refine ⟨hfin_active, ?_, ?_, observe_fresh e hfin_active⟩
  · rw [hu]
    exact finalizeFold_lost_none cfg o ids2 _ _ (finalize_track_lost_self hact1)
  · have hmono := finalizeFold_effs_mono cfg o ids2
      (finalize_track cfg o
        (finalizeFold cfg o
          ⟨st.active_tracks, tickLost present st.track_frames_lost⟩ ids1 []).1 tid).1
      ((finalizeFold cfg o
          ⟨st.active_tracks, tickLost present st.track_frames_lost⟩ ids1 []).2 ++
        [(finalize_track cfg o
          (finalizeFold cfg o
            ⟨st.active_tracks, tickLost present st.track_frames_lost⟩ ids1 []).1 tid).2]) []
    refine ⟨(finalizeFold cfg o
        ⟨st.active_tracks, tickLost present st.track_frames_lost⟩ ids1 []).2,
      (finalize_track cfg o
        (finalizeFold cfg o
          ⟨st.active_tracks, tickLost present st.track_frames_lost⟩ ids1 []).1 tid).2,
      (finalizeFold cfg o
        (finalize_track cfg o
          (finalizeFold cfg o
            ⟨st.active_tracks, tickLost present st.track_frames_lost⟩ ids1 []).1 tid).1
        ids2 []).2, ?_, heffkey, ?_, ?_⟩
    · rw [hu]
      have hnilr : ((finalizeFold cfg o
          ⟨st.active_tracks, tickLost present st.track_frames_lost⟩ ids1 []).2 ++
            [(finalize_track cfg o
              (finalizeFold cfg o
                ⟨st.active_tracks, tickLost present st.track_frames_lost⟩ ids1 []).1 tid).2]) =
          ((finalizeFold cfg o
            ⟨st.active_tracks, tickLost present st.track_frames_lost⟩ ids1 []).2 ++
              [(finalize_track cfg o
                (finalizeFold cfg o
                  ⟨st.active_tracks, tickLost present st.track_frames_lost⟩ ids1 []).1 tid).2]) ++
            [] := (List.append_nil _).symm
      rw [hnilr, hmono.1, List.append_assoc, List.singleton_append]
    · exact finalizeFold_no_tid_effect cfg o ids1 _ [] hn1 (by intro ef hef; simp at hef)
    · exact finalizeFold_no_tid_effect cfg o ids2 _ [] hn2 (by intro ef hef; simp at hef)

/-- C2 witness: with threshold 2, identity 7 (counter at 1, one stored event)
missing from the frame is evicted, both entries disappear, and a subsequent
observe recreates a fresh single-event track. -/
theorem C2_witness :
    ((((⟨[(7, [⟨0, ⟨0, 0, 1, 1⟩, 1⟩])], [(7, 1)]⟩ :
        DetectorState)).track_frames_lost.map (fun kv => kv.1)).Nodup ∧
      lookupA 7 ((⟨[(7, [⟨0, ⟨0, 0, 1, 1⟩, 1⟩])], [(7, 1)]⟩ :
        DetectorState)).track_frames_lost = some 1 ∧
      ((7 : ℤ) ∉ ([] : List ℤ)) ∧
      (⟨2, true, 50, 3 / 10⟩ : ServiceConfig).max_frames_lost ≤ 1 + 1 ∧
      lookupA 7 ((⟨[(7, [⟨0, ⟨0, 0, 1, 1⟩, 1⟩])], [(7, 1)]⟩ :
        DetectorState)).active_tracks = some [⟨0, ⟨0, 0, 1, 1⟩, 1⟩]) ∧
    lookupA 7 (update_lost_tracks ⟨2, true, 50, 3 / 10⟩ ⟨false, false, false⟩
        ⟨[(7, [⟨0, ⟨0, 0, 1, 1⟩, 1⟩])], [(7, 1)]⟩ []).1.active_tracks = none ∧
    lookupA 7 (observe (update_lost_tracks ⟨2, true, 50, 3 / 10⟩ ⟨false, false, false⟩
          ⟨[(7, [⟨0, ⟨0, 0, 1, 1⟩, 1⟩])], [(7, 1)]⟩ []).1 7
        ⟨5, ⟨2, 2, 3, 3⟩, 1⟩).active_tracks = some [⟨5, ⟨2, 2, 3, 3⟩, 1⟩] := by
  have happ := C2_eviction_exactly_once ⟨2, true, 50, 3 / 10⟩ ⟨false, false, false⟩
    ⟨[(7, [⟨0, ⟨0, 0, 1, 1⟩, 1⟩])], [(7, 1)]⟩ [] 7 1 [⟨0, ⟨0, 0, 1, 1⟩, 1⟩]
    ⟨5, ⟨2, 2, 3, 3⟩, 1⟩ (by decide) rfl (by decide) (by decide) rfl (by decide)
  exact ⟨⟨by decide, rfl, by decide, by decide, rfl⟩, happ.1, happ.2.2.2⟩

/-- C8: the shutdown drain finalizes every still-active track exactly once — the
tracks handed to finalization are exactly the table's entries, in order — and
afterwards both the track map and the miss-counter map are empty. -/
theorem C8_drain_all (cfg : ServiceConfig) (o : SinkOracle) (st : DetectorState)
    (hnodup : (st.active_tracks.map (fun kv => kv.1)).Nodup)
    (hsame : ∀ k, lookupA k st.active_tracks = none ↔ lookupA k st.track_frames_lost = none)
    (hne : ∀ kv ∈ st.active_tracks, kv.2 ≠ []) :
    (finalize_all_tracks cfg o st).1.active_tracks = [] ∧
    (finalize_all_tracks cfg o st).1.track_frames_lost = [] ∧
    (finalize_all_tracks cfg o st).2.filterMap (fun ef => ef.finalized) =
      st.active_tracks := by
  obtain ⟨hs, he⟩ :=
    finalizeFold_drain cfg o st.active_tracks st.track_frames_lost [] hnodup hsame hne
  have hdef : finalize_all_tracks cfg o st =
      finalizeFold cfg o ⟨st.active_tracks, st.track_frames_lost⟩
        (st.active_tracks.map (fun kv => kv.1)) [] := rfl
  rw [hdef]
  refine ⟨?_, ?_, ?_⟩
  · rw [hs]
  · rw [hs]
  · rw [he]; simp

/-- C8 witness: a two-track table (miss counters stored in a different order)
drains to an empty table, handing back exactly its two tracks. -/
theorem C8_witness :
    (((⟨[(1, [⟨0, ⟨0, 0, 1, 1⟩, 1⟩]), (2, [⟨1, ⟨0, 0, 2, 2⟩, 1⟩])],
          [(2, 0), (1, 3)]⟩ :
        DetectorState)).active_tracks.map (fun kv => kv.1)).Nodup ∧
    (finalize_all_tracks ⟨30, true, 50, 3 / 10⟩ ⟨false, false, false⟩
        ⟨[(1, [⟨0, ⟨0, 0, 1, 1⟩, 1⟩]), (2, [⟨1, ⟨0, 0, 2, 2⟩, 1⟩])],
          [(2, 0), (1, 3)]⟩).1.active_tracks = [] ∧
    (finalize_all_tracks ⟨30, true, 50, 3 / 10⟩ ⟨false, false, false⟩
        ⟨[(1, [⟨0, ⟨0, 0, 1, 1⟩, 1⟩]), (2, [⟨1, ⟨0, 0, 2, 2⟩, 1⟩])],
          [(2, 0), (1, 3)]⟩).1.track_frames_lost = [] ∧
    (finalize_all_tracks ⟨30, true, 50, 3 / 10⟩ ⟨false, false, false⟩
          ⟨[(1, [⟨0, ⟨0, 0, 1, 1⟩, 1⟩]), (2, [⟨1, ⟨0, 0, 2, 2⟩, 1⟩])],
            [(2, 0), (1, 3)]⟩).2.filterMap (fun ef => ef.finalized) =
      [(1, [⟨0, ⟨0, 0, 1, 1⟩, 1⟩]), (2, [⟨1, ⟨0, 0, 2, 2⟩, 1⟩])] := by
  have happ := C8_drain_all ⟨30, true, 50, 3 / 10⟩ ⟨false, false, false⟩
    ⟨[(1, [⟨0, ⟨0, 0, 1, 1⟩, 1⟩]), (2, [⟨1, ⟨0, 0, 2, 2⟩, 1⟩])], [(2, 0), (1, 3)]⟩
    (by decide)
    (by
      intro k
      by_cases h1 : (1 : ℤ) = k <;> by_cases h2 : (2 : ℤ) = k <;>
        simp [lookupA, h1, h2])
    (by decide)
  exact ⟨by decide, happ.1, happ.2.1, happ.2.2⟩

lemma finalize_track_shape (cfg : ServiceConfig) (o : SinkOracle) (st : DetectorState)
    (tid : ℤ) (track : List Event)
    (htrk : lookupA tid st.active_tracks = some track) (hne : track ≠ []) :
    ∃ best, get_best_event track = some best ∧
      finalize_track cfg o st tid =
        (⟨eraseA tid st.active_tracks, eraseA tid st.track_frames_lost⟩,
          if cfg.adapterPresent &&
              has_movement track cfg.min_movement_threshold cfg.min_movement_percentage then
            ⟨some (tid, track),
              (save_best_event o.saveFails tid best
                (has_movement track cfg.min_movement_threshold
                  cfg.min_movement_percentage)).1,
              (send_best_event_to_findface o.sendFails o.emptyResponse tid best).1,
              (save_best_event o.saveFails tid best
                  (has_movement track cfg.min_movement_threshold
                    cfg.min_movement_percentage)).2 ++
                (send_best_event_to_findface o.sendFails o.emptyResponse tid best).2⟩
          else if !has_movement track cfg.min_movement_threshold
              cfg.min_movement_percentage then
            ⟨some (tid, track),
              (save_best_event o.saveFails tid best
                (has_movement track cfg.min_movement_threshold
                  cfg.min_movement_percentage)).1,
              none,
              (save_best_event o.saveFails tid best
                  (has_movement track cfg.min_movement_threshold
                    cfg.min_movement_percentage)).2 ++
                [LogEntry.discardedNoMovement tid]⟩
          else
            ⟨some (tid, track),
              (save_best_event o.saveFails tid best
                (has_movement track cfg.min_movement_threshold
                  cfg.min_movement_percentage)).1,
              none,
              (save_best_event o.saveFails tid best
                  (has_movement track cfg.min_movement_threshold
                    cfg.min_movement_percentage)).2⟩) := by
  obtain ⟨best, hbe⟩ := get_best_event_of_ne_nil hne
  refine ⟨best, hbe, ?_⟩
  have hemp : track.isEmpty = false := by
    cases track with
    | nil => exact absurd rfl hne
    | cons a b => rfl
  unfold finalize_track
  rw [htrk]
  simp only [hemp, Bool.false_eq_true, if_false, hbe]
  split_ifs <;> rfl

/-- C6: at finalization (sinks healthy) the best observation is persisted
locally unconditionally, tagged with the movement flag; it is forwarded to the
remote sink only if movement was detected, and a static track is never
submitted remotely. -/
theorem C6_local_unconditional_remote_gated
    (cfg : ServiceConfig) (st : DetectorState) (tid : ℤ) (track : List Event)
    (htrk : lookupA tid st.active_tracks = some track) (hne : track ≠ []) :
    ∃ best, get_best_event track = some best ∧
      (finalize_track cfg ⟨false, false, false⟩ st tid).2.saved =
        some (tid, best,
          has_movement track cfg.min_movement_threshold cfg.min_movement_percentage) ∧
      (has_movement track cfg.min_movement_threshold cfg.min_movement_percentage = false →
        (finalize_track cfg ⟨false, false, false⟩ st tid).2.sent = none) ∧
      (∀ pr : ℤ × Event,
        (finalize_track cfg ⟨false, false, false⟩ st tid).2.sent = some pr →
        has_movement track cfg.min_movement_threshold cfg.min_movement_percentage = true) ∧
      (cfg.adapterPresent = true →
        has_movement track cfg.min_movement_threshold cfg.min_movement_percentage = true →
        (finalize_track cfg ⟨false, false, false⟩ st tid).2.sent = some (tid, best)) := by
  obtain ⟨best, hbe, hsh⟩ := finalize_track_shape cfg ⟨false, false, false⟩ st tid track htrk hne
  refine ⟨best, hbe, ?_⟩
  rw [hsh]
  cases hM : has_movement track cfg.min_movement_threshold cfg.min_movement_percentage <;>
    cases hA : cfg.adapterPresent <;>
      simp [save_best_event, send_best_event_to_findface]

/-- C6 witness: a one-event track (classified as moving) is both saved locally
with the MOV tag and forwarded to the remote sink. -/
theorem C6_witness :
    lookupA 3 ((⟨[(3, [⟨0, ⟨0, 0, 1, 1⟩, 1⟩])], [(3, 0)]⟩ :
        DetectorState)).active_tracks = some [⟨0, ⟨0, 0, 1, 1⟩, 1⟩] ∧
    ([(⟨0, ⟨0, 0, 1, 1⟩, 1⟩ : Event)] ≠ []) ∧
    (∃ best, get_best_event [(⟨0, ⟨0, 0, 1, 1⟩, 1⟩ : Event)] = some best ∧
      (finalize_track ⟨30, true, 50, 3 / 10⟩ ⟨false, false, false⟩
          ⟨[(3, [⟨0, ⟨0, 0, 1, 1⟩, 1⟩])], [(3, 0)]⟩ 3).2.saved =
        some (3, best,
          has_movement [⟨0, ⟨0, 0, 1, 1⟩, 1⟩] (⟨30, true, 50, 3 / 10⟩ :
            ServiceConfig).min_movement_threshold
            (⟨30, true, 50, 3 / 10⟩ : ServiceConfig).min_movement_percentage) ∧
      (has_movement [⟨0, ⟨0, 0, 1, 1⟩, 1⟩] (⟨30, true, 50, 3 / 10⟩ :
          ServiceConfig).min_movement_threshold
          (⟨30, true, 50, 3 / 10⟩ : ServiceConfig).min_movement_percentage = false →
        (finalize_track ⟨30, true, 50, 3 / 10⟩ ⟨false, false, false⟩
            ⟨[(3, [⟨0, ⟨0, 0, 1, 1⟩, 1⟩])], [(3, 0)]⟩ 3).2.sent = none) ∧
      (∀ pr : ℤ × Event,
        (finalize_track ⟨30, true, 50, 3 / 10⟩ ⟨false, false, false⟩
            ⟨[(3, [⟨0, ⟨0, 0, 1, 1⟩, 1⟩])], [(3, 0)]⟩ 3).2.sent = some pr →
        has_movement [⟨0, ⟨0, 0, 1, 1⟩, 1⟩] (⟨30, true, 50, 3 / 10⟩ :
          ServiceConfig).min_movement_threshold
          (⟨30, true, 50, 3 / 10⟩ : ServiceConfig).min_movement_percentage = true) ∧
      ((⟨30, true, 50, 3 / 10⟩ : ServiceConfig).adapterPresent = true →
        has_movement [⟨0, ⟨0, 0, 1, 1⟩, 1⟩] (⟨30, true, 50, 3 / 10⟩ :
          ServiceConfig).min_movement_threshold
          (⟨30, true, 50, 3 / 10⟩ : ServiceConfig).min_movement_percentage = true →
        (finalize_track ⟨30, true, 50, 3 / 10⟩ ⟨false, false, false⟩
            ⟨[(3, [⟨0, ⟨0, 0, 1, 1⟩, 1⟩])], [(3, 0)]⟩ 3).2.sent = some (3, best))) :=
  ⟨rfl, by decide,
    C6_local_unconditional_remote_gated ⟨30, true, 50, 3 / 10⟩
      ⟨[(3, [⟨0, ⟨0, 0, 1, 1⟩, 1⟩])], [(3, 0)]⟩ 3 [⟨0, ⟨0, 0, 1, 1⟩, 1⟩] rfl (by decide)⟩

/-- C9: local-persist and remote-forward failures are independent and never
fatal: the table cleanup is the same for every failure oracle, the remote
submission does not depend on whether the local save failed and vice versa,
each failure is logged, and each failure log appears at most once (no
synchronous retry). -/
theorem C9_sink_failures_independent
    (cfg : ServiceConfig) (o o2 : SinkOracle) (st : DetectorState) (tid : ℤ)
    (track : List Event)
    (htrk : lookupA tid st.active_tracks = some track) (hne : track ≠ []) :
    (finalize_track cfg o st tid).1 =
        (⟨eraseA tid st.active_tracks, eraseA tid st.track_frames_lost⟩ : DetectorState) ∧
    (o.sendFails = o2.sendFails → o.emptyResponse = o2.emptyResponse →
      (finalize_track cfg o st tid).2.sent = (finalize_track cfg o2 st tid).2.sent) ∧
    (o.saveFails = o2.saveFails →
      (finalize_track cfg o st tid).2.saved = (finalize_track cfg o2 st tid).2.saved) ∧
    (o.saveFails = true →
      LogEntry.saveError tid ∈ (finalize_track cfg o st tid).2.logs) ∧
    (o.sendFails = true → cfg.adapterPresent = true →
      has_movement track cfg.min_movement_threshold cfg.min_movement_percentage = true →
      LogEntry.sendError tid ∈ (finalize_track cfg o st tid).2.logs) ∧
    (finalize_track cfg o st tid).2.logs.count (LogEntry.saveError tid) ≤ 1 ∧
    (finalize_track cfg o st tid).2.logs.count (LogEntry.sendError tid) ≤ 1 := by
  obtain ⟨sf, df, er⟩ := o
  obtain ⟨sf2, df2, er2⟩ := o2
  obtain ⟨best, hbe, hsh⟩ := finalize_track_shape cfg ⟨sf, df, er⟩ st tid track htrk hne
  obtain ⟨best2, hbe2, hsh2⟩ := finalize_track_shape cfg ⟨sf2, df2, er2⟩ st tid track htrk hne
  have hbb : best2 = best := by rw [hbe] at hbe2; injection hbe2 with h2; exact h2.symm
  subst hbb
  rw [hsh, hsh2]
  refine ⟨by split_ifs <;> rfl, ?_, ?_, ?_, ?_, ?_, ?_⟩ <;>
    cases hM : has_movement track cfg.min_movement_threshold cfg.min_movement_percentage <;>
      cases hA : cfg.adapterPresent <;>
        cases sf <;> cases df <;> cases er <;>
          simp_all [save_best_event, send_best_event_to_findface]

/-- C9 witness: with both sinks failing on a moving one-event track, the cleanup
still happens, the remote attempt is still made independently of the save
failure, and both failures appear in the log exactly once. -/
theorem C9_witness :
    lookupA 4 ((⟨[(4, [⟨0, ⟨0, 0, 1, 1⟩, 1⟩])], [(4, 0)]⟩ :
        DetectorState)).active_tracks = some [⟨0, ⟨0, 0, 1, 1⟩, 1⟩] ∧
    ([(⟨0, ⟨0, 0, 1, 1⟩, 1⟩ : Event)] ≠ []) ∧
    (finalize_track ⟨30, true, 50, 3 / 10⟩ ⟨true, true, false⟩
        ⟨[(4, [⟨0, ⟨0, 0, 1, 1⟩, 1⟩])], [(4, 0)]⟩ 4).1 =
      (⟨eraseA 4 ((⟨[(4, [⟨0, ⟨0, 0, 1, 1⟩, 1⟩])], [(4, 0)]⟩ :
          DetectorState)).active_tracks,
        eraseA 4 ((⟨[(4, [⟨0, ⟨0, 0, 1, 1⟩, 1⟩])], [(4, 0)]⟩ :
          DetectorState)).track_frames_lost⟩ : DetectorState) ∧
    ((true : Bool) = true →
      LogEntry.saveError 4 ∈ (finalize_track ⟨30, true, 50, 3 / 10⟩ ⟨true, true, false⟩
        ⟨[(4, [⟨0, ⟨0, 0, 1, 1⟩, 1⟩])], [(4, 0)]⟩ 4).2.logs) ∧
    (finalize_track ⟨30, true, 50, 3 / 10⟩ ⟨true, true, false⟩
        ⟨[(4, [⟨0, ⟨0, 0, 1, 1⟩, 1⟩])], [(4, 0)]⟩ 4).2.logs.count
      (LogEntry.saveError 4) ≤ 1 := by
  have happ := C9_sink_failures_independent ⟨30, true, 50, 3 / 10⟩ ⟨true, true, false⟩
    ⟨false, false, false⟩ ⟨[(4, [⟨0, ⟨0, 0, 1, 1⟩, 1⟩])], [(4, 0)]⟩ 4
    [⟨0, ⟨0, 0, 1, 1⟩, 1⟩] rfl (by decide)
  exact ⟨rfl, by decide, happ.1, fun _ => happ.2.2.2.1 rfl, happ.2.2.2.2.2.1⟩

end DetectorService

namespace Supervisor

/-- Outcome of one iteration of a reconnect loop: the streaming call raised an
exception, or the user interrupted with KeyboardInterrupt. -/
inductive AttemptOutcome where
  | failure
  | interrupted
  deriving DecidableEq, Repr

/-- The observable loop state of `ByteTrackDetectorService._process_stream`:
the cooperative `running` flag, whether the `while` loop has been left, and the
backoff sleeps performed so far (seconds each). -/
structure SupState where
  running : Bool
  exitedLoop : Bool
  sleeps : List ℕ
  deriving DecidableEq, Repr

/-- One iteration of the `while self.running` loop of
`ByteTrackDetectorService._process_stream`: an exception is logged and answered
with a fixed `time.sleep(5)` before retrying; a KeyboardInterrupt breaks. -/
def supStep (s : SupState) (o : AttemptOutcome) : SupState :=
  if s.exitedLoop = true ∨ s.running = false then s
  else
    match o with
    | .failure => { s with sleeps := s.sleeps ++ [5] }
    | .interrupted => { s with exitedLoop := true }

/-- Run the stream loop over a finite prefix of attempt outcomes. -/
def runSupervisor (outs : List AttemptOutcome) (s : SupState) : SupState :=
  outs.foldl supStep s

def supInit : SupState := { running := true, exitedLoop := false, sleeps := [] }

/-- The loop state of `CameraProcessor._process_stream`: the consecutive
connection-attempt counter, whether the
`while attempts < self.max_reconnect_attempts and self.running` loop was left,
and the reconnect sleeps performed. -/
structure CamState where
  running : Bool
  attempts : ℕ
  exitedLoop : Bool
  sleeps : List ℕ
  deriving DecidableEq, Repr

/-- Outcome of one iteration of the camera loop: a failure before streaming, a
successful connect (which resets `attempts` to 0) followed by a later stream
exception, a KeyboardInterrupt, or a normal end of stream. -/
inductive CamOutcome where
  | connectFailure
  | runThenFail
  | interrupted
  | streamEnd
  deriving DecidableEq, Repr

/-- One iteration of `CameraProcessor._process_stream`: on an exception the
attempt counter is incremented and, if it is still below
`max_reconnect_attempts`, the loop sleeps `reconnect_interval` and retries —
otherwise it logs the give-up error and breaks.  A successful connect resets
the counter to 0 before any later exception increments it. -/
def camStep (maxReconnectAttempts reconnectInterval : ℕ) (s : CamState)
    (o : CamOutcome) : CamState :=
  if s.exitedLoop = true ∨ s.running = false ∨ maxReconnectAttempts ≤ s.attempts then s
  else
    match o with
    | .connectFailure =>
      if s.attempts + 1 < maxReconnectAttempts then
        { s with attempts := s.attempts + 1, sleeps := s.sleeps ++ [reconnectInterval] }
      else { s with attempts := s.attempts + 1, exitedLoop := true }
    | .runThenFail =>
      if 0 + 1 < maxReconnectAttempts then
        { s with attempts := 0 + 1, sleeps := s.sleeps ++ [reconnectInterval] }
      else { s with attempts := 0 + 1, exitedLoop := true }
    | .interrupted => { s with exitedLoop := true }
    | .streamEnd => { s with exitedLoop := true }

/-- Run the camera loop over a finite prefix of attempt outcomes. -/
def runCamera (maxReconnectAttempts reconnectInterval : ℕ) (outs : List CamOutcome)
    (s : CamState) : CamState :=
  outs.foldl (camStep maxReconnectAttempts reconnectInterval) s

def camInit : CamState := { running := true, attempts := 0, exitedLoop := false, sleeps := [] }

lemma runSupervisor_failures (n : ℕ) :
    ∀ sl : List ℕ, runSupervisor (List.replicate n AttemptOutcome.failure)
      ⟨true, false, sl⟩ = ⟨true, false, sl ++ List.replicate n 5⟩ := by
  induction n with
  | zero => intro sl; simp [runSupervisor, List.replicate]
  | succ n ih =>
    intro sl
    rw [List.replicate_succ]
    show runSupervisor (List.replicate n AttemptOutcome.failure)
        (supStep ⟨true, false, sl⟩ .failure) = _
    have hstep : supStep (⟨true, false, sl⟩ : SupState) .failure =
        ⟨true, false, sl ++ [5]⟩ := by
      simp [supStep]
    rw [hstep, ih (sl ++ [5]), List.append_assoc, List.singleton_append,
      ← List.replicate_succ]

lemma runSupervisor_stopped (outs : List AttemptOutcome) :
    ∀ sl : List ℕ, runSupervisor outs ⟨false, false, sl⟩ = ⟨false, false, sl⟩ := by
  induction outs with
  | nil => intro sl; rfl
  | cons o rest ih =>
    intro sl
    show runSupervisor rest (supStep ⟨false, false, sl⟩ o) = _
    have hstep : supStep (⟨false, false, sl⟩ : SupState) o = ⟨false, false, sl⟩ := by
      simp [supStep]
    rw [hstep, ih]

lemma runCamera_failures (n : ℕ) :
    runCamera 10 5 (List.replicate n CamOutcome.connectFailure) camInit =
      ⟨true, min n 10, decide (10 ≤ n), List.replicate (min n 9) 5⟩ := by
  induction n with
  | zero => rfl
  | succ n ih =>
    rw [List.replicate_succ']
    have hsplit : runCamera 10 5
        (List.replicate n CamOutcome.connectFailure ++ [CamOutcome.connectFailure]) camInit =
        camStep 10 5 (runCamera 10 5 (List.replicate n CamOutcome.connectFailure) camInit)
          CamOutcome.connectFailure := by
      unfold runCamera
      rw [List.foldl_append]
      rfl
    rw [hsplit, ih]
    by_cases h10 : 10 ≤ n
    · have hmin : min n 10 = 10 := by omega
      have hd : decide (10 ≤ n) = true := by simp [h10]
      have hd2 : decide (10 ≤ n + 1) = true := by simp; omega
      simp only [List.foldl_cons, List.foldl_nil, camStep, hmin, hd, hd2]
      rw [if_pos (Or.inl trivial)]
      have : min (n + 1) 10 = 10 := by omega
      rw [this]
      have : min (n + 1) 9 = 9 := by omega
      rw [this]
      have : min n 9 = 9 := by omega
      rw [this]
    · have hd : decide (10 ≤ n) = false := by simp; omega
      have hmin : min n 10 = n := by omega
      simp only [List.foldl_cons, List.foldl_nil, camStep, hd, hmin]
      rw [if_neg (by simp; omega)]
      by_cases h9 : n + 1 < 10
      · rw [if_pos h9]
        have h1 : min (n + 1) 10 = n + 1 := by omega
        have h2 : decide (10 ≤ n + 1) = false := by simp; omega
        have h3 : min n 9 = n := by omega
        have h4 : min (n + 1) 9 = n + 1 := by omega
        simp only [h1, h2, h3, h4]
        rw [← List.replicate_succ']
      · rw [if_neg h9]
        have h1 : min (n + 1) 10 = n + 1 := by omega
        have h2 : decide (10 ≤ n + 1) = true := by simp; omega
        have h3 : min n 9 = min (n + 1) 9 := by omega
        simp only [h1, h2, h3]

/-- C7 counterexample: the claim says every stream supervisor retries
indefinitely with no retry-count ceiling.  `CameraProcessor._process_stream`
(with its defaults `max_reconnect_attempts = 10`, `reconnect_interval = 5`)
leaves its loop for good after 10 consecutive connection failures — with the
cooperative running flag still true, i.e. without having been externally
stopped — after only 9 backoff sleeps. -/
theorem C7_counterexample_camera_gives_up :
    (runCamera 10 5 (List.replicate 10 CamOutcome.connectFailure) camInit).exitedLoop =
        true ∧
      (runCamera 10 5 (List.replicate 10 CamOutcome.connectFailure) camInit).running =
        true ∧
      (runCamera 10 5 (List.replicate 10 CamOutcome.connectFailure) camInit).sleeps =
        List.replicate 9 5 := by
  decide

/-- C7 amended: in `ByteTrackDetectorService._process_stream` a source failure
is never fatal — each failure adds exactly one fixed 5-second backoff sleep and
the loop stays live for any number of consecutive failures (no ceiling), while
a cleared running flag (external stop) halts it; but in
`CameraProcessor._process_stream` retries are capped: with the default ceiling
of 10, the n-th consecutive connection failure (n ≥ 10) leaves the loop for
good, after a fixed (non-exponential) configured backoff per retry. -/
theorem C7_amended_reconnect_policies :
    (∀ n : ℕ, runSupervisor (List.replicate n AttemptOutcome.failure) supInit =
      { running := true, exitedLoop := false, sleeps := List.replicate n 5 }) ∧
    (∀ outs : List AttemptOutcome,
      runSupervisor outs { running := false, exitedLoop := false, sleeps := [] } =
        { running := false, exitedLoop := false, sleeps := [] }) ∧
    ∀ n : ℕ, runCamera 10 5 (List.replicate n CamOutcome.connectFailure) camInit =
      { running := true, attempts := min n 10, exitedLoop := decide (10 ≤ n),
        sleeps := List.replicate (min n 9) 5 } := by
  refine ⟨?_, ?_, ?_⟩
  · intro n
    have h := runSupervisor_failures n []
    simpa [supInit] using h
  · intro outs
    exact runSupervisor_stopped outs []
  · intro n
    exact runCamera_failures n

end Supervisor

end DetectorRBT

/-- C3: for every valid input (integer-corner bbox, confidence in `[0, 1]`,
non-empty frame, landmarks present or absent), including degenerate zero-area
boxes, both quality scorers return a value in `[0, 1]`.  The embedded functions
are total, mirroring that the source guards every division (frame area is
positive, zero width short-circuits the proportion score, the sharpness crop is
checked for emptiness, and the standalone scorer floors width and height at 1
and clips the result). -/
theorem C3_quality_score_in_unit_interval
    (confidence : ℚ) (bbox : DetectorRBT.Bbox) (frameHeight frameWidth : ℤ)
    (landmarks : Option (List (ℚ × ℚ))) (roiEmpty : Bool) (laplacianVar : ℚ)
    (pc pt pf pp pn : ℚ)
    (hc0 : 0 ≤ confidence) (hc1 : confidence ≤ 1)
    (hx : bbox.x1 ≤ bbox.x2) (hy : bbox.y1 ≤ bbox.y2)
    (hH : 0 < frameHeight) (hW : 0 < frameWidth)
    (hlap : 0 ≤ laplacianVar)
    (hpc : 0 ≤ pc) (hpt : 0 ≤ pt) (hpf : 0 ≤ pf) (hpp : 0 ≤ pp) (hpn : 0 ≤ pn)
    (htot : 0 < pc + pt + pf + pp + pn) :
    (0 ≤ DetectorRBT.FaceQualityService.calculate_quality confidence bbox frameHeight frameWidth
        landmarks roiEmpty laplacianVar pc pt pf pp pn ∧
      DetectorRBT.FaceQualityService.calculate_quality confidence bbox frameHeight frameWidth
        landmarks roiEmpty laplacianVar pc pt pf pp pn ≤ 1) ∧
    ∀ (bbox2 : DetectorRBT.Bbox) (conf2 : ℝ) (fh fw : ℤ)
      (lms : Option DetectorRBT.FQS.Landmarks5) (w1 w2 : ℝ),
      0 ≤ DetectorRBT.FQS.get_face_quality_score bbox2 conf2 fh fw lms w1 w2 ∧
        DetectorRBT.FQS.get_face_quality_score bbox2 conf2 fh fw lms w1 w2 ≤ 1 := by
  constructor
  · have hsz0 := DetectorRBT.FaceQualityService.calcSizeScore_nonneg bbox frameHeight frameWidth
      hx hy hH hW
    have hsz1 := DetectorRBT.FaceQualityService.calcSizeScore_le_one bbox frameHeight frameWidth
    have hfr := DetectorRBT.FaceQualityService.calcFrontalScore_mem landmarks
    have hpr := DetectorRBT.FaceQualityService.calcProportionScore_mem bbox
    have hsh := DetectorRBT.FaceQualityService.calcSharpnessScore_mem roiEmpty laplacianVar hlap
    have := DetectorRBT.FaceQualityService.weighted_avg_mem
      (DetectorRBT.FaceQualityService.calcConfidenceScore confidence)
      (DetectorRBT.FaceQualityService.calcSizeScore bbox frameHeight frameWidth)
      (DetectorRBT.FaceQualityService.calcFrontalScore landmarks)
      (DetectorRBT.FaceQualityService.calcProportionScore bbox)
      (DetectorRBT.FaceQualityService.calcSharpnessScore roiEmpty laplacianVar)
      pc pt pf pp pn hc0 hc1 hsz0 hsz1 hfr.1 hfr.2 hpr.1 hpr.2 hsh.1 hsh.2
      hpc hpt hpf hpp hpn htot
    exact this
  · intro bbox2 conf2 fh fw lms w1 w2
    exact DetectorRBT.FQS.npClip_mem _

/-- C3 witness: the bounds hold at a concrete degenerate (zero-area) input with
the source's default weights. -/
theorem C3_witness :
    ((0 : ℚ) ≤ 1 / 2 ∧ (1 / 2 : ℚ) ≤ 1 ∧
      (⟨3, 4, 3, 4⟩ : DetectorRBT.Bbox).x1 ≤ (⟨3, 4, 3, 4⟩ : DetectorRBT.Bbox).x2 ∧
      (0 : ℤ) < 480 ∧ (0 : ℤ) < 640 ∧ (0 : ℚ) < 3 + 4 + 6 + 1 + 1) ∧
    (0 ≤ DetectorRBT.FaceQualityService.calculate_quality (1 / 2) ⟨3, 4, 3, 4⟩ 480 640
        none true 0 3 4 6 1 1 ∧
      DetectorRBT.FaceQualityService.calculate_quality (1 / 2) ⟨3, 4, 3, 4⟩ 480 640
        none true 0 3 4 6 1 1 ≤ 1) := by
  constructor
  · refine ⟨by norm_num, by norm_num, le_refl _, by norm_num, by norm_num, by norm_num⟩
  · exact (C3_quality_score_in_unit_interval (1 / 2) ⟨3, 4, 3, 4⟩ 480 640 none true 0
      3 4 6 1 1 (by norm_num) (by norm_num) (le_refl _) (le_refl _) (by norm_num) (by norm_num)
      (le_refl 0) (by norm_num) (by norm_num) (by norm_num) (by norm_num) (by norm_num)
      (by norm_num)).1

/-- C4: for every non-empty track the best-observation query returns an
observation of maximum quality score, and every observation inserted before it
has a strictly smaller score — so on ties the earliest-inserted maximum wins.
The same holds for the best-detection selection of `TrackProcessor.process`. -/
theorem C4_best_event_earliest_maximum :
    (∀ events : List DetectorRBT.TrackEntity.Event, events ≠ [] →
      ∃ b l1 l2, DetectorRBT.TrackEntity.get_best_event events = some b ∧
        events = l1 ++ b :: l2 ∧
        (∀ x ∈ events, x.quality ≤ b.quality) ∧
        ∀ x ∈ l1, x.quality < b.quality) ∧
    ∀ dets : List DetectorRBT.TrackEntity.Detection, dets ≠ [] →
      ∃ b l1 l2, DetectorRBT.TrackEntity.best_detection dets = some b ∧
        dets = l1 ++ b :: l2 ∧
        (∀ x ∈ dets, x.score ≤ b.score) ∧
        ∀ x ∈ l1, x.score < b.score := by
  constructor
  · intro events hne
    match events with
    | e :: rest =>
      obtain ⟨l1, l2, heq, h1, h2⟩ :=
        DetectorRBT.TrackEntity.pickBest_first_max (fun x => x.quality) e rest
      exact ⟨_, l1, l2, rfl, heq, h1, h2⟩
  · intro dets hne
    match dets with
    | d :: rest =>
      obtain ⟨l1, l2, heq, h1, h2⟩ :=
        DetectorRBT.TrackEntity.pickBest_first_max (fun x => x.score) d rest
      exact ⟨_, l1, l2, rfl, heq, h1, h2⟩

/-- C4 witness: on a track whose maximum score 2 appears at events 1 and 2, the
query picks event 1, the earliest-inserted maximum. -/
theorem C4_witness :
    ([⟨0, ⟨0, 0, 1, 1⟩, 1⟩, ⟨1, ⟨0, 0, 1, 1⟩, 2⟩, ⟨2, ⟨0, 0, 1, 1⟩, 2⟩] :
        List DetectorRBT.TrackEntity.Event) ≠ [] ∧
    DetectorRBT.TrackEntity.get_best_event
        [⟨0, ⟨0, 0, 1, 1⟩, 1⟩, ⟨1, ⟨0, 0, 1, 1⟩, 2⟩, ⟨2, ⟨0, 0, 1, 1⟩, 2⟩] =
      some ⟨1, ⟨0, 0, 1, 1⟩, 2⟩ ∧
    (∃ b l1 l2,
      DetectorRBT.TrackEntity.get_best_event
          [⟨0, ⟨0, 0, 1, 1⟩, 1⟩, ⟨1, ⟨0, 0, 1, 1⟩, 2⟩, ⟨2, ⟨0, 0, 1, 1⟩, 2⟩] = some b ∧
        [⟨0, ⟨0, 0, 1, 1⟩, 1⟩, ⟨1, ⟨0, 0, 1, 1⟩, 2⟩, ⟨2, ⟨0, 0, 1, 1⟩, 2⟩] = l1 ++ b :: l2 ∧
        (∀ x ∈ [(⟨0, ⟨0, 0, 1, 1⟩, 1⟩ : DetectorRBT.TrackEntity.Event),
            ⟨1, ⟨0, 0, 1, 1⟩, 2⟩, ⟨2, ⟨0, 0, 1, 1⟩, 2⟩], x.quality ≤ b.quality) ∧
        ∀ x ∈ l1, x.quality < b.quality) :=
  ⟨by decide, by decide,
    C4_best_event_earliest_maximum.1
      [⟨0, ⟨0, 0, 1, 1⟩, 1⟩, ⟨1, ⟨0, 0, 1, 1⟩, 2⟩, ⟨2, ⟨0, 0, 1, 1⟩, 2⟩] (by decide)⟩

/-- C5: the movement classifier returns `true` for a one-event track for any
thresholds, `false` for an empty track, and for two or more events it returns
`true` exactly when the fraction of temporally consecutive center pairs whose
Euclidean distance is at least `min_threshold_pixels` reaches
`min_frame_percentage`. -/
theorem C5_has_movement_rule
    (events : List DetectorRBT.TrackEntity.Event)
    (minThresholdPixels minFramePercentage : ℝ) :
    (events.length = 1 →
      DetectorRBT.TrackEntity.has_movement events minThresholdPixels minFramePercentage =
        true) ∧
    (events.length = 0 →
      DetectorRBT.TrackEntity.has_movement events minThresholdPixels minFramePercentage =
        false) ∧
    (2 ≤ events.length →
      (DetectorRBT.TrackEntity.has_movement events minThresholdPixels minFramePercentage =
          true ↔
        minFramePercentage ≤
          (((((DetectorRBT.TrackEntity.centers events).zip
                  (DetectorRBT.TrackEntity.centers events).tail).filter
                (fun pr =>
                  decide (minThresholdPixels ≤
                    DetectorRBT.TrackEntity.centerDist pr.1 pr.2))).length : ℕ) : ℝ) /
            ((((DetectorRBT.TrackEntity.centers events).zip
                  (DetectorRBT.TrackEntity.centers events).tail).length : ℕ) : ℝ))) := by
  refine ⟨?_, ?_, ?_⟩
  · intro h1
    unfold DetectorRBT.TrackEntity.has_movement
    rw [if_pos h1]
  · intro h0
    unfold DetectorRBT.TrackEntity.has_movement
    rw [if_neg (by omega), if_pos (by omega)]
  · intro h2
    unfold DetectorRBT.TrackEntity.has_movement
    rw [if_neg (by omega), if_neg (by omega)]
    have hnum := List.countP_eq_length_filter
      (fun pr : (ℚ × ℚ) × (ℚ × ℚ) =>
        decide (minThresholdPixels ≤ DetectorRBT.TrackEntity.centerDist pr.1 pr.2))
      ((DetectorRBT.TrackEntity.centers events).zip
        (DetectorRBT.TrackEntity.centers events).tail)
    have hden := DetectorRBT.TrackEntity.length_zip_tail
      (DetectorRBT.TrackEntity.centers events)
    simp only [decide_eq_true_eq, hnum, hden]

/-- C5 witness: a single-event track is classified as moving at the default
thresholds (50 px, 0.3). -/
theorem C5_witness :
    ([(⟨0, ⟨0, 0, 2, 2⟩, 1⟩ : DetectorRBT.TrackEntity.Event)].length = 1) ∧
    DetectorRBT.TrackEntity.has_movement [⟨0, ⟨0, 0, 2, 2⟩, 1⟩] 50 (3 / 10) = true :=
  ⟨rfl, (C5_has_movement_rule [⟨0, ⟨0, 0, 2, 2⟩, 1⟩] 50 (3 / 10)).1 rfl⟩

/-- C10: for fewer than two observations the movement statistics are all zero
with no movement detected (no division happens); for at least two observations
they are the sum, mean, maximum and minimum of the Euclidean distances between
consecutive bbox centers, and movement is flagged exactly when the maximum
distance is strictly positive. -/
theorem C10_movement_statistics (events : List DetectorRBT.TrackEntity.Event) :
    (events.length < 2 →
      DetectorRBT.TrackEntity.get_movement_statistics events =
        { total_distance := 0, average_distance := 0, max_distance := 0,
          min_distance := 0, movement_detected := false }) ∧
    (2 ≤ events.length →
      (DetectorRBT.TrackEntity.get_movement_statistics events).total_distance =
          (DetectorRBT.TrackEntity.distList events).sum ∧
        (DetectorRBT.TrackEntity.get_movement_statistics events).average_distance =
          (DetectorRBT.TrackEntity.distList events).sum / ((events.length - 1 : ℕ) : ℝ) ∧
        (DetectorRBT.TrackEntity.get_movement_statistics events).max_distance ∈
          DetectorRBT.TrackEntity.distList events ∧
        (∀ d ∈ DetectorRBT.TrackEntity.distList events,
          d ≤ (DetectorRBT.TrackEntity.get_movement_statistics events).max_distance) ∧
        (DetectorRBT.TrackEntity.get_movement_statistics events).min_distance ∈
          DetectorRBT.TrackEntity.distList events ∧
        (∀ d ∈ DetectorRBT.TrackEntity.distList events,
          (DetectorRBT.TrackEntity.get_movement_statistics events).min_distance ≤ d) ∧
        ((DetectorRBT.TrackEntity.get_movement_statistics events).movement_detected = true ↔
          0 < (DetectorRBT.TrackEntity.get_movement_statistics events).max_distance)) := by
  constructor
  · intro hlt
    unfold DetectorRBT.TrackEntity.get_movement_statistics
    rw [if_pos hlt]
  · intro h2
    have hne : DetectorRBT.TrackEntity.distList events ≠ [] := by
      have := DetectorRBT.TrackEntity.length_distList events
      intro hnil
      rw [hnil] at this
      simp at this
      omega
    unfold DetectorRBT.TrackEntity.get_movement_statistics
    rw [if_neg (by omega)]
    refine ⟨rfl, ?_, ?_, ?_, ?_, ?_, ?_⟩
    · show (DetectorRBT.TrackEntity.distList events).sum /
          (((DetectorRBT.TrackEntity.distList events).length : ℕ) : ℝ) = _
      rw [DetectorRBT.TrackEntity.length_distList]
    · exact DetectorRBT.TrackEntity.listMax_mem _ hne
    · exact DetectorRBT.TrackEntity.le_listMax _
    · exact DetectorRBT.TrackEntity.listMin_mem _ hne
    · exact DetectorRBT.TrackEntity.listMin_le _
    · show decide (0 < DetectorRBT.TrackEntity.listMax (DetectorRBT.TrackEntity.distList events)) = true ↔ _
      simp only [decide_eq_true_eq]

/-- C10 witness: a three-event track whose centers are (0,0), (3,0), (7,0); the
statistics obey the statement at this concrete input. -/
theorem C10_witness :
    2 ≤ ([(⟨0, ⟨0, 0, 0, 0⟩, 1⟩ : DetectorRBT.TrackEntity.Event),
        ⟨1, ⟨3, 0, 3, 0⟩, 1⟩, ⟨2, ⟨7, 0, 7, 0⟩, 1⟩] :
          List DetectorRBT.TrackEntity.Event).length ∧
    ((DetectorRBT.TrackEntity.get_movement_statistics
          [⟨0, ⟨0, 0, 0, 0⟩, 1⟩, ⟨1, ⟨3, 0, 3, 0⟩, 1⟩, ⟨2, ⟨7, 0, 7, 0⟩, 1⟩]).total_distance =
        (DetectorRBT.TrackEntity.distList
          [⟨0, ⟨0, 0, 0, 0⟩, 1⟩, ⟨1, ⟨3, 0, 3, 0⟩, 1⟩, ⟨2, ⟨7, 0, 7, 0⟩, 1⟩]).sum ∧
      (DetectorRBT.TrackEntity.get_movement_statistics
          [⟨0, ⟨0, 0, 0, 0⟩, 1⟩, ⟨1, ⟨3, 0, 3, 0⟩, 1⟩, ⟨2, ⟨7, 0, 7, 0⟩, 1⟩]).max_distance ∈
        DetectorRBT.TrackEntity.distList
          [⟨0, ⟨0, 0, 0, 0⟩, 1⟩, ⟨1, ⟨3, 0, 3, 0⟩, 1⟩, ⟨2, ⟨7, 0, 7, 0⟩, 1⟩]) := by
  refine ⟨by norm_num, ?_, ?_⟩
  · exact ((C10_movement_statistics
      [⟨0, ⟨0, 0, 0, 0⟩, 1⟩, ⟨1, ⟨3, 0, 3, 0⟩, 1⟩, ⟨2, ⟨7, 0, 7, 0⟩, 1⟩]).2
      (by norm_num)).1
  · exact ((C10_movement_statistics
      [⟨0, ⟨0, 0, 0, 0⟩, 1⟩, ⟨1, ⟨3, 0, 3, 0⟩, 1⟩, ⟨2, ⟨7, 0, 7, 0⟩, 1⟩]).2
      (by norm_num)).2.2.1

/-- C1 counterexample: the claim says that in every quality-score computation an
absent landmarks argument gives a fixed low frontality sub-score (0.01), never 1.0.
In `FaceQualityService._calculate_frontal_score` an absent landmark set yields
exactly `1.0`, not `0.01`. -/
theorem C1_counterexample_service_frontal_is_one :
    DetectorRBT.FaceQualityService.calcFrontalScore none = 1 ∧
      DetectorRBT.FaceQualityService.calcFrontalScore none ≠ 1 / 100 := by
  constructor
  · rfl
  · intro h
    norm_num [DetectorRBT.FaceQualityService.calcFrontalScore] at h

/-- C1 amended: in the standalone scorer `get_face_quality_score` the frontality
sub-score for an absent landmarks argument is the fixed constant `0.01` (and not
`1.0`), while the DDD variant `FaceQualityService._calculate_frontal_score`
returns `1.0` for absent landmarks. -/
theorem C1_amended_frontality_constants :
    DetectorRBT.FQS.gfqs_frontal_ratio none = 1 / 100 ∧
      DetectorRBT.FQS.gfqs_frontal_ratio none ≠ 1 ∧
      DetectorRBT.FaceQualityService.calcFrontalScore none = 1 := by
  refine ⟨rfl, ?_, rfl⟩
  intro h
  rw [show DetectorRBT.FQS.gfqs_frontal_ratio none = 1 / 100 from rfl] at h
  norm_num at h
